import Mathlib

/-!
# fetch-orders: a verification development

A shallow embedding of `main.go` (the one-shot transfer of `orders` documents from a
document store into an XML archive) together with theorems about it.

Layout: the collaborators the program calls (`encoding/json`, the `os` file calls, the
store client) are modelled first, then the functions of `main.go` under their own names,
then the theorems.
-/

namespace FetchOrders

/-! ## Data model (`main.go`, lines 20-31) -/

/-- Go `xml.Name`: the two strings of an XML element name. -/
structure Name where
  Space : String
  Local : String
deriving DecidableEq, Repr

/-- Go `type product struct`: `XMLName`, `ID` (JSON key `id`), `Amount` (JSON key `amount`). -/
structure product where
  XMLName : Name
  ID : String
  Amount : Int
deriving DecidableEq, Repr

/-- Go `time.Time`, as nanoseconds since the Unix epoch. -/
structure Time where
  unixNano : Int
deriving DecidableEq, Repr

/-- Go `type order struct`. -/
structure order where
  XMLName : Name
  UID : String
  Date : Time
  Products : List product
deriving DecidableEq, Repr

/-- The zero value of `xml.Name`. -/
def Name.zero : Name := ⟨"", ""⟩

/-- The zero value of `product`, what `make([]product, n)` fills the slice with. -/
def product.zero : product := ⟨Name.zero, "", 0⟩

/-! ## The `encoding/json` collaborator

`json.Unmarshal(data, &p)` for `p : product`: the input is first checked against the JSON
grammar as a whole (`checkValid`); only a valid input is decoded, field by field, and a
value of the wrong kind for a field is recorded as the error to return while decoding
goes on with the remaining fields. -/

namespace Json

/-- Lexical tokens of JSON text. -/
inductive Token where
  | lbrace | rbrace | lbrack | rbrack | colon | comma
  | str (s : String)
  | num (lit : String)
  | tTrue | tFalse | tNull
deriving DecidableEq, Repr

/-- A parsed JSON value; a number keeps its literal text. -/
inductive JValue where
  | null
  | bool (b : Bool)
  | num (lit : String)
  | str (s : String)
  | arr (xs : List JValue)
  | obj (kvs : List (String × JValue))

/-- JSON whitespace: space, tab, carriage return, line feed. -/
def isSpace (c : Char) : Bool :=
  c = ' ' || c = '\t' || c = '\r' || c = '\n'

/-- The value of a hexadecimal digit. -/
def hexVal (c : Char) : Option Nat :=
  if '0' ≤ c ∧ c ≤ '9' then some (c.toNat - '0'.toNat)
  else if 'a' ≤ c ∧ c ≤ 'f' then some (c.toNat - 'a'.toNat + 10)
  else if 'A' ≤ c ∧ c ≤ 'F' then some (c.toNat - 'A'.toNat + 10)
  else none

/-- Four hexadecimal digits, as after a backslash-u escape (`getu4`). -/
def getu4 : List Char → Option (Nat × List Char)
  | a :: b :: c :: d :: rest =>
    match hexVal a, hexVal b, hexVal c, hexVal d with
    | some x, some y, some z, some w => some (((x * 16 + y) * 16 + z) * 16 + w, rest)
    | _, _, _, _ => none
  | _ => none

/-- The Unicode replacement character U+FFFD. -/
def replacementChar : Char := Char.ofNat 0xFFFD

/-- A rune from a code unit of a backslash-u escape and the text after it: a surrogate
followed by an escaped low surrogate is combined, a surrogate alone becomes U+FFFD. -/
def escapedRune (u : Nat) (rest : List Char) : Char × List Char :=
  if 0xD800 ≤ u ∧ u < 0xE000 then
    match rest with
    | '\\' :: 'u' :: rest1 =>
      match getu4 rest1 with
      | some (v, rest2) =>
        if u < 0xDC00 ∧ 0xDC00 ≤ v ∧ v < 0xE000 then
          (Char.ofNat ((u - 0xD800) * 0x400 + (v - 0xDC00) + 0x10000), rest2)
        else (replacementChar, rest)
      | none => (replacementChar, rest)
    | _ => (replacementChar, rest)
  else (Char.ofNat u, rest)

/-- The body of a string literal after its opening quote: the unquoted text and what
follows the closing quote. A control character or an unknown escape is an error. -/
def scanString : Nat → List Char → List Char → Option (String × List Char)
  | 0, _, _ => none
  | _ + 1, [], _ => none
  | fuel + 1, c :: rest, acc =>
    if c = '"' then some (String.mk acc.reverse, rest)
    else if c = '\\' then
      match rest with
      | [] => none
      | e :: rest1 =>
        if e = '"' then scanString fuel rest1 ('"' :: acc)
        else if e = '\\' then scanString fuel rest1 ('\\' :: acc)
        else if e = '/' then scanString fuel rest1 ('/' :: acc)
        else if e = 'b' then scanString fuel rest1 (Char.ofNat 8 :: acc)
        else if e = 'f' then scanString fuel rest1 (Char.ofNat 12 :: acc)
        else if e = 'n' then scanString fuel rest1 ('\n' :: acc)
        else if e = 'r' then scanString fuel rest1 ('\r' :: acc)
        else if e = 't' then scanString fuel rest1 ('\t' :: acc)
        else if e = 'u' then
          match getu4 rest1 with
          | some (u, rest2) =>
            let r := escapedRune u rest2
            scanString fuel r.2 (r.1 :: acc)
          | none => none
        else none
    else if c.toNat < 0x20 then none
    else scanString fuel rest (c :: acc)

/-- The longest run of decimal digits at the head of the input. -/
def takeDigits : List Char → List Char × List Char
  | [] => ([], [])
  | c :: rest =>
    if c.isDigit then
      let r := takeDigits rest
      (c :: r.1, r.2)
    else ([], c :: rest)

/-- The integer part of a number: a single `0`, or a nonzero digit and more digits. -/
def scanIntPart (cs : List Char) : Option (List Char × List Char) :=
  match cs with
  | [] => none
  | c :: rest =>
    if c = '0' then some ([c], rest)
    else if c.isDigit then
      let r := takeDigits rest
      some (c :: r.1, r.2)
    else none

/-- The optional fraction: a dot and at least one digit. -/
def scanFrac (cs : List Char) : Option (List Char × List Char) :=
  match cs with
  | '.' :: rest =>
    match takeDigits rest with
    | ([], _) => none
    | (ds, rest1) => some ('.' :: ds, rest1)
  | _ => some ([], cs)

/-- The optional exponent: `e` or `E`, an optional sign and at least one digit. -/
def scanExp (cs : List Char) : Option (List Char × List Char) :=
  match cs with
  | [] => some ([], cs)
  | e :: rest =>
    if e = 'e' ∨ e = 'E' then
      let signed : List Char × List Char :=
        match rest with
        | s :: rest1 => if s = '+' ∨ s = '-' then ([s], rest1) else ([], rest)
        | [] => ([], rest)
      match takeDigits signed.2 with
      | ([], _) => none
      | (ds, rest2) => some (e :: (signed.1 ++ ds), rest2)
    else some ([], cs)

/-- A number literal at the head of the input: its text and the rest. -/
def scanNumber (cs : List Char) : Option (String × List Char) :=
  let signed : List Char × List Char :=
    match cs with
    | '-' :: rest => (['-'], rest)
    | _ => ([], cs)
  match scanIntPart signed.2 with
  | none => none
  | some (ip, r1) =>
    match scanFrac r1 with
    | none => none
    | some (fp, r2) =>
      match scanExp r2 with
      | none => none
      | some (ep, r3) => some (String.mk (signed.1 ++ ip ++ fp ++ ep), r3)

/-- Strip a fixed word (`true`, `false`, `null`) from the head of the input. -/
def stripWord : List Char → List Char → Option (List Char)
  | [], cs => some cs
  | _ :: _, [] => none
  | w :: ws, c :: cs => if w = c then stripWord ws cs else none

/-- Split JSON text into tokens; `none` when some character starts no token. -/
def tokenize : Nat → List Char → Option (List Token)
  | _, [] => some []
  | 0, _ :: _ => none
  | fuel + 1, c :: rest =>
    if isSpace c then tokenize fuel rest
    else if c = '\x7b' then (tokenize fuel rest).map (Token.lbrace :: ·)
    else if c = '\x7d' then (tokenize fuel rest).map (Token.rbrace :: ·)
    else if c = '[' then (tokenize fuel rest).map (Token.lbrack :: ·)
    else if c = ']' then (tokenize fuel rest).map (Token.rbrack :: ·)
    else if c = ':' then (tokenize fuel rest).map (Token.colon :: ·)
    else if c = ',' then (tokenize fuel rest).map (Token.comma :: ·)
    else if c = '"' then
      match scanString (rest.length + 1) rest [] with
      | some (s, rest1) => (tokenize fuel rest1).map (Token.str s :: ·)
      | none => none
    else if c = 't' then
      match stripWord ['r', 'u', 'e'] rest with
      | some rest1 => (tokenize fuel rest1).map (Token.tTrue :: ·)
      | none => none
    else if c = 'f' then
      match stripWord ['a', 'l', 's', 'e'] rest with
      | some rest1 => (tokenize fuel rest1).map (Token.tFalse :: ·)
      | none => none
    else if c = 'n' then
      match stripWord ['u', 'l', 'l'] rest with
      | some rest1 => (tokenize fuel rest1).map (Token.tNull :: ·)
      | none => none
    else if c = '-' ∨ c.isDigit then
      match scanNumber (c :: rest) with
      | some (lit, rest1) => (tokenize fuel rest1).map (Token.num lit :: ·)
      | none => none
    else none

/-- The scanner's bound on open arrays and objects (`maxNestingDepth`). -/
def maxNestingDepth : Nat := 10000

mutual
/-- One JSON value at the head of the token list, `depth` containers being open. -/
def parseValue : Nat → Nat → List Token → Option (JValue × List Token)
  | 0, _, _ => none
  | _ + 1, _, [] => none
  | fuel + 1, depth, t :: ts =>
    match t with
    | .tNull => some (.null, ts)
    | .tTrue => some (.bool true, ts)
    | .tFalse => some (.bool false, ts)
    | .num lit => some (.num lit, ts)
    | .str s => some (.str s, ts)
    | .lbrack =>
      if maxNestingDepth < depth + 1 then none
      else
        match ts with
        | .rbrack :: ts1 => some (.arr [], ts1)
        | _ =>
          match parseElems fuel (depth + 1) ts with
          | some (vs, ts1) => some (.arr vs, ts1)
          | none => none
    | .lbrace =>
      if maxNestingDepth < depth + 1 then none
      else
        match ts with
        | .rbrace :: ts1 => some (.obj [], ts1)
        | _ =>
          match parseMembers fuel (depth + 1) ts with
          | some (kvs, ts1) => some (.obj kvs, ts1)
          | none => none
    | _ => none
/-- The elements of a nonempty array, up to and including the closing bracket. -/
def parseElems : Nat → Nat → List Token → Option (List JValue × List Token)
  | 0, _, _ => none
  | fuel + 1, depth, ts =>
    match parseValue fuel depth ts with
    | some (v, .comma :: ts1) =>
      match parseElems fuel depth ts1 with
      | some (vs, ts2) => some (v :: vs, ts2)
      | none => none
    | some (v, .rbrack :: ts1) => some ([v], ts1)
    | _ => none
/-- The members of a nonempty object, up to and including the closing brace. -/
def parseMembers : Nat → Nat → List Token → Option (List (String × JValue) × List Token)
  | 0, _, _ => none
  | fuel + 1, depth, ts =>
    match ts with
    | .str k :: .colon :: ts0 =>
      match parseValue fuel depth ts0 with
      | some (v, .comma :: ts1) =>
        match parseMembers fuel depth ts1 with
        | some (kvs, ts2) => some ((k, v) :: kvs, ts2)
        | none => none
      | some (v, .rbrace :: ts1) => some ([(k, v)], ts1)
      | _ => none
    | _ => none
end

/-- The whole text as one JSON value (`checkValid` and the scan of the decoder):
`none` is a syntax error. -/
def parse (data : String) : Option JValue :=
  match tokenize (data.data.length + 1) data.data with
  | none => none
  | some ts =>
    match parseValue (2 * ts.length + 2) 0 ts with
    | some (v, []) => some v
    | _ => none

/-- The error of `json.Unmarshal`: a `SyntaxError`, or the first `UnmarshalTypeError`
with the description of the offending JSON value. -/
inductive JsonError where
  | invalid
  | typeMismatch (value : String)
deriving DecidableEq, Repr

/-- The decoder's `saveError`: only the first error is kept. -/
def saveError : Option JsonError → Option JsonError → Option JsonError
  | some e, _ => some e
  | none, e => e

/-- The description of a JSON value in an `UnmarshalTypeError`; `null` raises none. -/
def describe : JValue → Option String
  | .null => none
  | .bool _ => some "bool"
  | .num _ => some "number"
  | .str _ => some "string"
  | .arr _ => some "array"
  | .obj _ => some "object"

/-- The type error for a value that the target cannot hold. -/
def mismatch (v : JValue) : Option JsonError :=
  (describe v).map JsonError.typeMismatch

/-- Store a JSON value into a Go `string`: a string is stored, `null` changes nothing,
anything else is a type error and changes nothing. -/
def storeString (v : JValue) (cur : String) : String × Option JsonError :=
  match v with
  | .str s => (s, none)
  | other => (cur, mismatch other)

/-- The value of a run of decimal digits; `none` on any other character. -/
def digitsValue : List Char → Nat → Option Nat
  | [], acc => some acc
  | c :: cs, acc => if c.isDigit then digitsValue cs (acc * 10 + (c.toNat - '0'.toNat)) else none

/-- The text of a JSON number as a 64-bit Go `int` (`strconv.ParseInt(s, 10, 64)`):
`none` for a fraction, an exponent or a value out of range. -/
def parseInt64 (lit : String) : Option Int :=
  let r : Option Int :=
    match lit.data with
    | '-' :: ds => (digitsValue ds 0).map (fun n => - (n : Int))
    | ds => (digitsValue ds 0).map (fun n => (n : Int))
  match r with
  | some n => if -(2 ^ 63 : Int) ≤ n ∧ n ≤ 2 ^ 63 - 1 then some n else none
  | none => none

/-- Store a JSON value into a Go `int`: a number that `parseInt64` accepts is stored,
one it rejects is a type error quoting the literal; `null` changes nothing; anything
else is a type error. -/
def storeInt (v : JValue) (cur : Int) : Int × Option JsonError :=
  match v with
  | .num lit =>
    match parseInt64 lit with
    | some n => (n, none)
    | none => (cur, some (JsonError.typeMismatch ("number " ++ lit)))
  | other => (cur, mismatch other)

/-- Case folding of one rune of an object key, as far as it can reach an ASCII letter:
lower-case ASCII, the long s and the Kelvin sign. -/
def foldRune (c : Char) : Char :=
  if c = Char.ofNat 0x17F then 'S'
  else if c = Char.ofNat 0x212A then 'K'
  else c.toUpper

/-- Case folding of an object key (`foldName`): keys match field names up to case. -/
def foldName (s : String) : String := String.mk (s.data.map foldRune)

/-- Store the members of an object into an `xml.Name` (fields `Space`, `Local`). -/
def storeNameMembers : List (String × JValue) → Name × Option JsonError → Name × Option JsonError
  | [], st => st
  | (k, v) :: kvs, (n, err) =>
    if foldName k = "SPACE" then
      let r := storeString v n.Space
      storeNameMembers kvs ({ n with Space := r.1 }, saveError err r.2)
    else if foldName k = "LOCAL" then
      let r := storeString v n.Local
      storeNameMembers kvs ({ n with Local := r.1 }, saveError err r.2)
    else storeNameMembers kvs (n, err)

/-- Store a JSON value into an `xml.Name`. -/
def storeName (v : JValue) (cur : Name) : Name × Option JsonError :=
  match v with
  | .obj kvs => storeNameMembers kvs (cur, none)
  | other => (cur, mismatch other)

/-- Store the members of an object into a `product`: key `XMLName`, `id` or `amount`
up to case; another key is skipped; a later member overwrites an earlier one. -/
def storeProductMembers :
    List (String × JValue) → product × Option JsonError → product × Option JsonError
  | [], st => st
  | (k, v) :: kvs, (p, err) =>
    if foldName k = "XMLNAME" then
      let r := storeName v p.XMLName
      storeProductMembers kvs ({ p with XMLName := r.1 }, saveError err r.2)
    else if foldName k = "ID" then
      let r := storeString v p.ID
      storeProductMembers kvs ({ p with ID := r.1 }, saveError err r.2)
    else if foldName k = "AMOUNT" then
      let r := storeInt v p.Amount
      storeProductMembers kvs ({ p with Amount := r.1 }, saveError err r.2)
    else storeProductMembers kvs (p, err)

/-- Store a JSON value into a `product`. -/
def storeProduct (v : JValue) (cur : product) : product × Option JsonError :=
  match v with
  | .obj kvs => storeProductMembers kvs (cur, none)
  | other => (cur, mismatch other)

/-- Go `json.Unmarshal(data, &p)`: the value left in `p` and the error returned. A
syntax error leaves `p` as it was. -/
def Unmarshal (data : String) (p : product) : product × Option JsonError :=
  match parse data with
  | none => (p, some JsonError.invalid)
  | some v => storeProduct v p

end Json

/-! ## The document store collaborator (`cloud.google.com/go/firestore`) -/

/-- A field value as `DocumentSnapshot.Data()` hands it out in an `interface{}`. The
kinds whose content `main.go` can never look at (`float64`, `[]byte`, references,
geo points) are `other`, tagged with the name of their Go type. -/
inductive Value where
  | null
  | bool (b : Bool)
  | int (n : Int)
  | str (s : String)
  | time (t : Time)
  | array (xs : List Value)
  | map (kvs : List (String × Value))
  | other (goType : String)

/-- The dynamic type of a value, as the runtime prints it in a failed type assertion. -/
def Value.goType : Value → String
  | .null => "nil"
  | .bool _ => "bool"
  | .int _ => "int64"
  | .str _ => "string"
  | .time _ => "time.Time"
  | .array _ => "[]interface {}"
  | .map _ => "map[string]interface {}"
  | .other t => t

/-- Go `*firestore.DocumentSnapshot`: the reference of the document and its fields. -/
structure DocumentSnapshot where
  Ref : String
  Data : List (String × Value)

/-- Go `data[key]` on a `map[string]interface{}`: a missing key gives `nil`. -/
def index (data : List (String × Value)) (key : String) : Value :=
  match data.find? (fun kv => kv.1 = key) with
  | some kv => kv.2
  | none => Value.null

/-- The message of the run-time panic of a failed type assertion `v.(want)`. -/
def assertPanic (v : Value) (want : String) : String :=
  "interface conversion: interface {} is " ++ v.goType ++ ", not " ++ want

/-! ## The `os` collaborator

A path is a spelling. The file it names is found by walking the spelling component by
component, from the root when it starts with a slash and from the working directory
otherwise; `.` stays and `..` goes up. Links are not modelled. A file system maps files
to contents. Every call can fail: a spelling may be unreachable for the process (then
every call on it fails, `os.Stat` included), and each mutating call has a fault of its
own. -/

/-- A file, named by the components of its absolute path. -/
abbrev File := List String

/-- The files: the content of each file, `none` where nothing exists. -/
abbrev FS := File → Option String

/-- The file system with the entry of `file` replaced. -/
def FS.set (fs : FS) (file : File) (entry : Option String) : FS :=
  fun q => if q = file then entry else fs q

/-- The state of a walk along a spelling: the directories entered so far, the last one
first, and the characters of the component being read, the last one first. -/
structure Walk where
  dirs : List String
  cur : List Char

/-- End the component being read: an empty one and `.` stay, `..` goes up (the root is
its own parent), any other name is entered. -/
def Walk.close (w : Walk) : Walk :=
  if w.cur = [] ∨ w.cur = ['.'] then ⟨w.dirs, []⟩
  else if w.cur = ['.', '.'] then ⟨w.dirs.tail, []⟩
  else ⟨String.mk w.cur.reverse :: w.dirs, []⟩

/-- Read one character of a spelling: a slash ends the component. -/
def Walk.step (w : Walk) (c : Char) : Walk :=
  if c = '/' then w.close else ⟨w.dirs, c :: w.cur⟩

/-- Read the characters of a spelling. -/
def walk (start : Walk) (cs : List Char) : Walk := cs.foldl Walk.step start

/-- Where the walk along a spelling starts: at the root for an absolute path, in the
working directory `cwd` otherwise. -/
def startOf (cwd : String) (cs : List Char) : Walk :=
  match cs with
  | [] => (walk ⟨[], []⟩ cwd.data).close
  | c :: _ => if c = '/' then ⟨[], []⟩ else (walk ⟨[], []⟩ cwd.data).close

/-- The file a spelling names for a process whose working directory is `cwd`. -/
def resolveFrom (cwd path : String) : File :=
  ((walk (startOf cwd path.data) path.data).close).dirs.reverse

/-- How `os.WriteFile` fails: at the open, before the file is touched, or at the write,
after the file was created or truncated and `written` bytes went out. -/
inductive WriteFault where
  | atOpen (err : String)
  | atWrite (written : Nat) (err : String)
deriving DecidableEq, Repr

/-- The environment of a run: what the process is given and, for each call, the error
it returns, if any. -/
structure Env where
  /-- The working directory of the process. -/
  cwd : String
  /-- Result of `filepath.Abs(filepath.Dir(os.Args[0]))`. -/
  absDir : Except String String
  /-- Result of `os.Getpid()`. -/
  pid : Int
  /-- The error with which every call on a spelling fails (a directory on the way
  that cannot be searched or does not exist), if any. -/
  unreachable : String → Option String
  /-- Fault of `os.WriteFile` on a path. -/
  writeFault : String → Option WriteFault
  /-- Fault of `os.Rename` from one path onto another. -/
  renameFault : String → String → Option String
  /-- Fault of `os.Remove` on a path. -/
  removeFault : String → Option String
  /-- Result of `xml.Marshal` on the archive. -/
  xmlMarshal : List order → Except String String
  /-- Error of `firebase.NewApp` for a credentials file. -/
  newApp : String → Option String
  /-- Error of `app.Firestore`. -/
  firestore : Option String
  /-- Error of the query `GetAll`. -/
  getAll : Option String
  /-- Error of `batch.Commit` for the references of the batch. -/
  commit : List String → Option String

/-- The file a spelling names in this environment. -/
def resolve (env : Env) (path : String) : File := resolveFrom env.cwd path

/-- The error with which the system refuses a spelling before it looks at the file:
the empty path names nothing, and a spelling may be unreachable. -/
def pathError (env : Env) (path : String) : Option String :=
  if path = "" then some "no such file or directory" else env.unreachable path

/-- Go `os.Stat(path)`: the error, `none` when the call succeeds. The call succeeds
when the spelling is reachable and the file exists. -/
def Stat (env : Env) (fs : FS) (path : String) : Option String :=
  match pathError env path with
  | some err => some ("stat " ++ path ++ ": " ++ err)
  | none =>
    match fs (resolve env path) with
    | none => some ("stat " ++ path ++ ": no such file or directory")
    | some _ => none

/-- Go `os.WriteFile(name, data, 0644)`: the error and the file system afterwards. -/
def WriteFile (env : Env) (fs : FS) (name data : String) : Option String × FS :=
  match pathError env name with
  | some err => (some ("open " ++ name ++ ": " ++ err), fs)
  | none =>
    match env.writeFault name with
    | none => (none, fs.set (resolve env name) (some data))
    | some (.atOpen err) => (some err, fs)
    | some (.atWrite written err) =>
      (some err, fs.set (resolve env name) (some (String.mk (data.data.take written))))

/-- Go `os.Rename(oldpath, newpath)`: on success the content moves onto `newpath`;
renaming a file onto itself changes nothing. -/
def Rename (env : Env) (fs : FS) (oldpath newpath : String) : Option String × FS :=
  match pathError env oldpath, pathError env newpath with
  | some err, _ => (some ("rename " ++ oldpath ++ " " ++ newpath ++ ": " ++ err), fs)
  | none, some err => (some ("rename " ++ oldpath ++ " " ++ newpath ++ ": " ++ err), fs)
  | none, none =>
    match env.renameFault oldpath newpath with
    | some err => (some err, fs)
    | none =>
      match fs (resolve env oldpath) with
      | none =>
        (some ("rename " ++ oldpath ++ " " ++ newpath ++ ": no such file or directory"), fs)
      | some content =>
        if resolve env oldpath = resolve env newpath then (none, fs)
        else (none, (fs.set (resolve env newpath) (some content)).set (resolve env oldpath) none)

/-- Go `os.Remove(name)`. -/
def Remove (env : Env) (fs : FS) (name : String) : Option String × FS :=
  match pathError env name with
  | some err => (some ("remove " ++ name ++ ": " ++ err), fs)
  | none =>
    match env.removeFault name with
    | some err => (some err, fs)
    | none =>
      match fs (resolve env name) with
      | none => (some ("remove " ++ name ++ ": no such file or directory"), fs)
      | some _ => (none, fs.set (resolve env name) none)

/-! ## The program (`main.go`) -/

/-- The calls a run makes, in order, each with what it was given and how it ended. -/
inductive Event where
  | writePID (path text : String) (ok : Bool)
  | setupFirestore (credentialsFilename : String) (ok : Bool)
  | fetchDocuments (result : Option (List DocumentSnapshot))
  | parseOrders (documents : List DocumentSnapshot) (ok : Bool)
  | saveOrders (filename : String) (orders : List order) (ok : Bool)
  | deleteDocuments (documents : List DocumentSnapshot) (ok : Bool)
  | removePID (path : String) (ok : Bool)

/-- What a run acts on: the files, the documents of the collection `orders` in the
order the query returns them, and the calls made so far. -/
structure World where
  fs : FS
  store : List DocumentSnapshot
  trace : List Event

/-- Append a call to the trace. -/
def World.log (w : World) (e : Event) : World := { w with trace := w.trace ++ [e] }

/-- How the process ends: the usage message, a normal return, or a panic. -/
inductive Exit where
  | usage
  | done
  | panic (msg : String)
deriving DecidableEq, Repr

/-- The variable `pIDFile` as `init` sets it: the directory of the program (empty when
`filepath.Abs` fails, its error being dropped) followed by `/.pid`. -/
def pIDFile (env : Env) : String :=
  (match env.absDir with
    | .ok dir => dir
    | .error _ => "") ++ "/.pid"

/-- Go `setupFirestore`. -/
def setupFirestore (env : Env) (credentialsFilename : String) : Option String :=
  match env.newApp credentialsFilename with
  | some err => some ("error initializing firebase: " ++ err)
  | none =>
    match env.firestore with
    | some err => some ("error initializing firestore: " ++ err)
    | none => none

/-- Go `fetchDocuments`: all documents of the collection, or the wrapped error. -/
def fetchDocuments (env : Env) (store : List DocumentSnapshot) :
    Except String (List DocumentSnapshot) :=
  match env.getAll with
  | some err => .error ("error retrieving dordersocuments: " ++ err)
  | none => .ok store

/-- The loop of `deleteDocuments`: one delete per document, in order. -/
def batchDeletes : List DocumentSnapshot → List String
  | [] => []
  | document :: rest => document.Ref :: batchDeletes rest

/-- Go `deleteDocuments`: the error and the collection afterwards. -/
def deleteDocuments (env : Env) (store documents : List DocumentSnapshot) :
    Option String × List DocumentSnapshot :=
  let batch := batchDeletes documents
  match env.commit batch with
  | some err => (some ("error deleting orders: " ++ err), store)
  | none => (none, store.filter (fun d => decide (d.Ref ∉ batch)))

/-- The inner loop of `parseOrders`: each payload must be a `string` and is handed to
`json.Unmarshal` with a zero `product` as target; the error of the decoder is dropped. -/
def parseProducts : List Value → Except String (List product)
  | [] => .ok []
  | ps :: rest =>
    match ps with
    | .str payload =>
      match parseProducts rest with
      | .ok products => .ok ((Json.Unmarshal payload product.zero).1 :: products)
      | .error e => .error e
    | other => .error (assertPanic other "string")

/-- One turn of the outer loop of `parseOrders`; an error is the panic of a failed
type assertion. -/
def parseOrder (document : DocumentSnapshot) : Except String order :=
  let data := document.Data
  match index data "products" with
  | .array productsStr =>
    match parseProducts productsStr with
    | .error e => .error e
    | .ok products =>
      match index data "uid" with
      | .str uid =>
        match index data "date" with
        | .time date => .ok { XMLName := Name.zero, UID := uid, Date := date, Products := products }
        | other => .error (assertPanic other "time.Time")
      | other => .error (assertPanic other "string")
  | other => .error (assertPanic other "[]interface {}")

/-- Go `parseOrders`: one order per document, in order; the first panic ends it. -/
def parseOrders : List DocumentSnapshot → Except String (List order)
  | [] => .ok []
  | document :: rest =>
    match parseOrder document with
    | .error e => .error e
    | .ok o =>
      match parseOrders rest with
      | .error e => .error e
      | .ok orders => .ok (o :: orders)

/-- Go `saveOrders`: the error and the file system afterwards. -/
def saveOrders (env : Env) (fs : FS) (filename : String) (orders : List order) :
    Option String × FS :=
  match env.xmlMarshal orders with
  | .error err => (some ("error converting to xml: " ++ err), fs)
  | .ok data =>
    let tmpFilename := filename ++ ".tmp"
    match WriteFile env fs tmpFilename data with
    | (some err, fs1) => (some ("error writing file " ++ tmpFilename ++ ": " ++ err), fs1)
    | (none, fs1) =>
      match Rename env fs1 tmpFilename filename with
      | (some err, fs2) => (some ("error writing file " ++ filename ++ ": " ++ err), fs2)
      | (none, fs2) => (none, fs2)

/-- Go `safetyCheck`: `none` lets the run proceed, `some msg` is the error returned.
Each test is `os.Stat` returning a nil error; any error of `os.Stat` lets the test pass. -/
def safetyCheck (env : Env) (fs : FS) (filename : String) : Option String :=
  let tmpFilename := filename ++ ".tmp"
  if (Stat env fs tmpFilename).isNone then some (tmpFilename ++ " exists")
  else if (Stat env fs filename).isNone then some (filename ++ " exists")
  else if (Stat env fs (pIDFile env)).isNone then
    some ("another proccess is running, check " ++ pIDFile env)
  else none

/-- The statements of `main` after `defer os.Remove(pIDFile)`, up to the return or the
first panic. -/
def pipeline (env : Env) (filename credentials : String) (w : World) : Exit × World :=
  match setupFirestore env credentials with
  | some err => (.panic err, w.log (.setupFirestore credentials false))
  | none =>
    let w1 := w.log (.setupFirestore credentials true)
    match fetchDocuments env w1.store with
    | .error err => (.panic err, w1.log (.fetchDocuments none))
    | .ok documents =>
      let w2 := w1.log (.fetchDocuments (some documents))
      match parseOrders documents with
      | .error err => (.panic err, w2.log (.parseOrders documents false))
      | .ok orders =>
        let w3 := w2.log (.parseOrders documents true)
        match saveOrders env w3.fs filename orders with
        | (some err, fs1) =>
          (.panic err, { w3 with fs := fs1 }.log (.saveOrders filename orders false))
        | (none, fs1) =>
          let w4 := { w3 with fs := fs1 }.log (.saveOrders filename orders true)
          match deleteDocuments env w4.store documents with
          | (some err, store1) =>
            (.panic err, { w4 with store := store1 }.log (.deleteDocuments documents false))
          | (none, store1) =>
            (.done, { w4 with store := store1 }.log (.deleteDocuments documents true))

/-- Go `main` on the argument vector `args` (`os.Args`). The deferred `os.Remove` runs
when `main` returns and when it panics. -/
def main (env : Env) (args : List String) (w : World) : Exit × World :=
  match args with
  | [_, filename, credentials] =>
    match safetyCheck env w.fs filename with
    | some err => (.panic err, w)
    | none =>
      let text := toString env.pid
      let wr := WriteFile env w.fs (pIDFile env) text
      let w1 := { w with fs := wr.2 }.log (.writePID (pIDFile env) text wr.1.isNone)
      let r := pipeline env filename credentials w1
      let rm := Remove env r.2.fs (pIDFile env)
      (r.1, { r.2 with fs := rm.2 }.log (.removePID (pIDFile env) rm.1.isNone))
  | _ => (.usage, w)

/-! ## Vocabulary of the statements -/

/-- A message mentions a path when the path occurs in it as a run of characters. -/
def mentions (msg path : String) : Prop := path.data <:+: msg.data

instance (msg path : String) : Decidable (mentions msg path) := by
  unfold mentions; infer_instance

/-- The staging path of an archive path, as `saveOrders` and `safetyCheck` build it. -/
def staging (filename : String) : String := filename ++ ".tmp"

/-- The path names a file that exists. -/
def present (env : Env) (fs : FS) (path : String) : Bool := (fs (resolve env path)).isSome

/-- The property that the verdict of `safetyCheck` follows the existence of the staging
path, the target and the lock marker, tested in this order. -/
def VerdictByExistence : Prop :=
  ∀ (env : Env) (fs : FS) (filename : String),
    (present env fs (staging filename) = true →
      safetyCheck env fs filename = some (staging filename ++ " exists")) ∧
    (present env fs (staging filename) = false → present env fs filename = true →
      safetyCheck env fs filename = some (filename ++ " exists")) ∧
    (present env fs (staging filename) = false → present env fs filename = false →
      present env fs (pIDFile env) = true →
      safetyCheck env fs filename =
        some ("another proccess is running, check " ++ pIDFile env)) ∧
    (present env fs (staging filename) = false → present env fs filename = false →
      present env fs (pIDFile env) = false → safetyCheck env fs filename = none)

/-- The event is a call of `deleteDocuments`. -/
def Event.isDelete : Event → Bool
  | .deleteDocuments _ _ => true
  | _ => false

/-- The event is a call of `fetchDocuments`. -/
def Event.isFetch : Event → Bool
  | .fetchDocuments _ => true
  | _ => false

/-- The event is a call of `saveOrders`. -/
def Event.isSave : Event → Bool
  | .saveOrders _ _ _ => true
  | _ => false

/-- The event is a call that failed: a setup, fetch, transform or archive write that
ended in an error. -/
def Event.failedBeforePurge : Event → Bool
  | .setupFirestore _ false => true
  | .fetchDocuments none => true
  | .parseOrders _ false => true
  | .saveOrders _ _ false => true
  | _ => false

/-- The payloads of a `products` sequence all of whose elements are strings. -/
def payloadsOf : List Value → Option (List String)
  | [] => some []
  | .str payload :: rest => (payloadsOf rest).map (payload :: ·)
  | _ :: _ => none

/-- The content of a well-shaped document: a string `uid`, a time `date` and a
`products` sequence of strings; `none` for any other document. -/
def shapeOf (d : DocumentSnapshot) : Option (String × Time × List String) :=
  match index d.Data "uid", index d.Data "date", index d.Data "products" with
  | .str uid, .time date, .array xs => (payloadsOf xs).map (fun payloads => (uid, date, payloads))
  | _, _, _ => none

/-- The document lacks the identifier as a string or the timestamp as a time. -/
def lacksKey (d : DocumentSnapshot) : Prop :=
  (∀ uid, index d.Data "uid" ≠ .str uid) ∨ (∀ date, index d.Data "date" ≠ .time date)

/-- The world a run is in once the lock marker has been written. -/
def locked (env : Env) (w : World) : World :=
  { fs := (WriteFile env w.fs (pIDFile env) (toString env.pid)).2,
    store := w.store,
    trace := w.trace ++ [.writePID (pIDFile env) (toString env.pid)
      (WriteFile env w.fs (pIDFile env) (toString env.pid)).1.isNone] }

/-- The calls made by one run of `main`: what the run appends to the trace. -/
def callsOf (env : Env) (args : List String) (w : World) : List Event :=
  (main env args w).2.trace.drop w.trace.length

/-- The fetch of the run fails, or a document of the collection lacks the identifier
as a string or the timestamp as a time. -/
def FetchOrShapeFailure (env : Env) (w : World) : Prop :=
  env.getAll ≠ none ∨ ∃ d ∈ w.store, lacksKey d

/-- The run panics without a call of `saveOrders` or `deleteDocuments`, and leaves the
target path, its staging path and the collection as they were. -/
def AbortsUntouched (env : Env) (prog filename credentials : String) (w : World) : Prop :=
  (∃ msg, (main env [prog, filename, credentials] w).1 = .panic msg) ∧
  (∀ e ∈ callsOf env [prog, filename, credentials] w, e.isSave = false ∧ e.isDelete = false) ∧
  (main env [prog, filename, credentials] w).2.fs (resolve env filename) =
    w.fs (resolve env filename) ∧
  (main env [prog, filename, credentials] w).2.fs (resolve env (staging filename)) =
    w.fs (resolve env (staging filename)) ∧
  (main env [prog, filename, credentials] w).2.store = w.store

/-- The run committed the archive and its purge then failed. -/
def CommittedNotPurged (env : Env) (prog filename credentials : String) (w : World) : Prop :=
  (∃ orders, Event.saveOrders filename orders true ∈ callsOf env [prog, filename, credentials] w) ∧
  (∃ documents, Event.deleteDocuments documents false ∈
    callsOf env [prog, filename, credentials] w)

/-- No call fails in this environment. -/
def Env.faultless (env : Env) : Prop :=
  (∀ path, env.unreachable path = none) ∧ (∀ path, env.writeFault path = none) ∧ (∀ a b, env.renameFault a b = none) ∧
  (∀ path, env.removeFault path = none) ∧ (∀ orders, ∃ data, env.xmlMarshal orders = .ok data) ∧
  (∀ credentials, env.newApp credentials = none) ∧ env.firestore = none ∧ env.getAll = none ∧
  (∀ batch, env.commit batch = none)

/-- The property that after a run that committed the archive and failed to purge, a
second run on the same archive path, from the same working directory and with no
call failing, fetches the documents again
and writes them to the archive again. -/
def RerunReappends : Prop :=
  ∀ (env1 env2 : Env) (prog filename credentials : String) (w : World),
    CommittedNotPurged env1 prog filename credentials w → env2.faultless →
    env2.cwd = env1.cwd →
    (∃ documents, Event.fetchDocuments (some documents) ∈
      callsOf env2 [prog, filename, credentials] (main env1 [prog, filename, credentials] w).2) ∧
    (∃ orders, Event.saveOrders filename orders true ∈
      callsOf env2 [prog, filename, credentials] (main env1 [prog, filename, credentials] w).2)

/-- The property that a payload whose decoding fails leaves the zero-valued item at its
position, for every sequence of well-shaped documents. -/
def ZeroItemOnDecodeFailure : Prop :=
  ∀ (docs : List DocumentSnapshot) (orders : List order), (∀ d ∈ docs, shapeOf d ≠ none) →
    parseOrders docs = .ok orders →
    ∀ (i j : Nat) (d : DocumentSnapshot) (uid : String) (date : Time) (payloads : List String)
      (payload : String) (o : order),
      docs[i]? = some d → shapeOf d = some (uid, date, payloads) →
      payloads[j]? = some payload → (Json.Unmarshal payload product.zero).2 ≠ none →
      orders[i]? = some o → o.Products[j]? = some product.zero

/-! ## Sample inputs -/

/-- A document with identifier `u1` and the one payload `\x7b"id":"p1","amount":3\x7d`. -/
def docA : DocumentSnapshot :=
  { Ref := "orders/a",
    Data := [("uid", .str "u1"), ("date", .time ⟨1704067200000000000⟩),
      ("products", .array [.str "\x7b\"id\":\"p1\",\"amount\":3\x7d"])] }

/-- A document with identifier `u2` and no payload. -/
def docB : DocumentSnapshot :=
  { Ref := "orders/b",
    Data := [("uid", .str "u2"), ("date", .time ⟨1704153600000000000⟩),
      ("products", .array [])] }

/-- A payload that is valid JSON but gives a string where the amount is an integer. -/
def mistypedPayload : String := "\x7b\"id\":\"p1\",\"amount\":\"x\"\x7d"

/-- A payload that is not valid JSON: the closing brace is missing. -/
def truncatedPayload : String := "\x7b\"id\":\"p1\",\"amount\":3"

/-- A document with identifier `u3` whose payloads are a mistyped one, a truncated one
and a good one. -/
def docC : DocumentSnapshot :=
  { Ref := "orders/c",
    Data := [("uid", .str "u3"), ("date", .time ⟨1704240000000000000⟩),
      ("products", .array [.str mistypedPayload, .str truncatedPayload,
        .str "\x7b\"id\":\"p2\",\"amount\":7\x7d"])] }

/-- A stand-in for `xml.Marshal` in the sample runs: the identifiers of the orders. -/
def sampleMarshal (orders : List order) : Except String String :=
  .ok ("orders:" ++ String.intercalate "," (orders.map (fun o => o.UID)))

/-- An environment in which no call fails; the program sits in `/opt/fetch`. -/
def calm : Env :=
  { cwd := "/opt/fetch"
    absDir := .ok "/opt/fetch"
    pid := 4242
    unreachable := fun _ => none
    writeFault := fun _ => none
    renameFault := fun _ _ => none
    removeFault := fun _ => none
    xmlMarshal := sampleMarshal
    newApp := fun _ => none
    firestore := none
    getAll := none
    commit := fun _ => none }

/-- As `calm`, but the lock marker cannot be written: the open fails. -/
def readOnlyInstall : Env :=
  { calm with
    writeFault := fun path =>
      if path = "/opt/fetch/.pid" then
        some (.atOpen "open /opt/fetch/.pid: permission denied")
      else none }

/-- As `calm`, but the process cannot reach the lock marker: every call on its path
fails with a permission error. -/
def sealedInstall : Env :=
  { calm with
    unreachable := fun path =>
      if path = "/opt/fetch/.pid" then some "permission denied" else none }

/-- As `calm`, but the query fails. -/
def fetchDown : Env := { calm with getAll := some "unavailable" }

/-- As `fetchDown`, and moreover no file can be removed. -/
def fetchDownNoRemove : Env :=
  { fetchDown with removeFault := fun path => some ("remove " ++ path ++ ": operation not permitted") }

/-- As `calm`, but the commit of the batch of deletes fails. -/
def purgeDown : Env := { calm with commit := fun _ => some "deadline exceeded" }

/-- An empty file system and a collection holding the two sample documents. -/
def fresh : World := { fs := fun _ => none, store := [docA, docB], trace := [] }

/-- The orders `parseOrders` makes of the two sample documents. -/
def sampleOrders : List order :=
  [order.mk Name.zero "u1" ⟨1704067200000000000⟩ [product.mk Name.zero "p1" 3],
   order.mk Name.zero "u2" ⟨1704153600000000000⟩ []]

/-- A world in which another run holds the lock marker. -/
def held : World :=
  { fs := fun file => if file = ["opt", "fetch", ".pid"] then some "977" else none,
    store := [docA, docB],
    trace := [] }

/-- The arguments of the sample runs. -/
def sampleArgs : List String := ["fetch-orders", "orders.xml", "key.json"]

/-! ## Theorems -/

/-! ### Paths and messages -/

theorem mentions_mid (a p b : String) : mentions (a ++ p ++ b) p := by
  unfold mentions
  exact ⟨a.data, b.data, by simp [String.data_append]⟩

theorem mentions_head (p b : String) : mentions (p ++ b) p := by
  unfold mentions
  exact ⟨[], b.data, by simp [String.data_append]⟩

theorem mentions_tail (a p : String) : mentions (a ++ p) p := by
  unfold mentions
  exact ⟨a.data, [], by simp [String.data_append]⟩

theorem mentions_wrapped (a p b c : String) : mentions (a ++ p ++ b ++ c) p := by
  unfold mentions
  exact ⟨a.data, b.data ++ c.data, by simp [String.data_append]⟩

theorem walk_append (s : Walk) (a b : List Char) : walk s (a ++ b) = walk (walk s a) b := by
  simp [walk, List.foldl_append]

theorem close_cur (w : Walk) : w.close.cur = [] := by
  unfold Walk.close
  split
  · rfl
  · split <;> rfl

/-- The file of a staging spelling: the last name read so far, extended by `.tmp`, is
entered from where the walk along the target stands. -/
theorem resolve_staging (cwd p : String) :
    ∃ D C, (resolveFrom cwd (p ++ ".tmp")).reverse =
        String.mk (C.reverse ++ ['.', 't', 'm', 'p']) :: D ∧
      (resolveFrom cwd p).reverse = (Walk.close ⟨D, C⟩).dirs := by
  have hstart : startOf cwd (p.data ++ ['.', 't', 'm', 'p']) = startOf cwd p.data := by
    cases p.data with
    | nil => simp [startOf]
    | cons c cs => simp [startOf]
  have hdata : (p ++ ".tmp").data = p.data ++ ['.', 't', 'm', 'p'] := by
    rw [String.data_append]
  refine ⟨(walk (startOf cwd p.data) p.data).dirs, (walk (startOf cwd p.data) p.data).cur, ?_, ?_⟩
  · unfold resolveFrom
    rw [hdata, hstart, walk_append]
    generalize walk (startOf cwd p.data) p.data = w
    simp [walk, Walk.step, Walk.close]
  · simp [resolveFrom]

/-- The file of the lock marker is named `.pid`. -/
theorem resolve_marker (cwd d : String) :
    ∃ D, (resolveFrom cwd (d ++ "/.pid")).reverse = ".pid" :: D := by
  have hdata : (d ++ "/.pid").data = d.data ++ ['/', '.', 'p', 'i', 'd'] := by
    rw [String.data_append]
  unfold resolveFrom
  rw [hdata, walk_append]
  generalize walk (startOf cwd (d.data ++ ['/', '.', 'p', 'i', 'd'])) d.data = w
  have h1 : walk w ['/', '.', 'p', 'i', 'd'] =
      ⟨w.close.dirs, ['d', 'i', 'p', '.'] ++ w.close.cur⟩ := by
    simp [walk, Walk.step]
  rw [h1, close_cur]
  refine ⟨w.close.dirs, ?_⟩
  generalize w.close.dirs = D
  simp [Walk.close]

/-- The staging path and the target never name the same file. -/
theorem staging_ne (env : Env) (filename : String) :
    resolve env (staging filename) ≠ resolve env filename := by
  obtain ⟨D, C, h1, h2⟩ := resolve_staging env.cwd filename
  intro h
  unfold resolve staging at h
  rw [h, h2] at h1
  unfold Walk.close at h1
  simp only at h1
  split at h1
  · have := congrArg List.length h1
    simp at this
  · split at h1
    · have := congrArg List.length h1
      simp at this
    · simp only [List.cons.injEq, and_true] at h1
      have := congrArg (fun s => s.data.length) h1
      simp at this

/-- The lock marker and the staging path never name the same file. -/
theorem pIDFile_ne_staging (env : Env) (filename : String) :
    resolve env (pIDFile env) ≠ resolve env (staging filename) := by
  obtain ⟨D, C, h1, _⟩ := resolve_staging env.cwd filename
  obtain ⟨D2, h2⟩ := resolve_marker env.cwd
    (match env.absDir with
      | .ok dir => dir
      | .error _ => "")
  intro h
  unfold resolve staging pIDFile at h
  rw [h, h1] at h2
  simp only [List.cons.injEq] at h2
  have hd := congrArg (fun s => s.data.reverse.head?) h2.1
  simp at hd

theorem set_same (fs : FS) (p : File) (e : Option String) : (fs.set p e) p = e := by
  simp [FS.set]

theorem set_other (fs : FS) (p q : File) (e : Option String) (h : q ≠ p) :
    (fs.set p e) q = fs q := by
  simp [FS.set, h]

theorem Stat_ok_iff (env : Env) (fs : FS) (path : String) :
    Stat env fs path = none ↔ pathError env path = none ∧ present env fs path = true := by
  unfold Stat present
  cases pathError env path with
  | some err => simp
  | none =>
    cases fs (resolve env path) with
    | none => simp
    | some c => simp

/-! ### The safety check -/

/-- C3, amended. The verdict of `safetyCheck` is decided by whether `os.Stat` succeeds
on three paths, tested in this order, the first success winning: the staging path
(error naming it), the target (error naming it), the lock marker (error containing its
path); otherwise no error. `os.Stat` succeeds on a path exactly when the process can
reach it and the file exists, so a path that exists but cannot be reached counts as
absent. The verdict depends on nothing else of the file system, and the check returns
only a verdict, so a second call on the same file system gives the same one. -/
theorem safetyCheck_verdict (env : Env) (fs : FS) (filename : String) :
    (Stat env fs (staging filename) = none →
      safetyCheck env fs filename = some (staging filename ++ " exists") ∧
      mentions (staging filename ++ " exists") (staging filename)) ∧
    (Stat env fs (staging filename) ≠ none → Stat env fs filename = none →
      safetyCheck env fs filename = some (filename ++ " exists") ∧
      mentions (filename ++ " exists") filename) ∧
    (Stat env fs (staging filename) ≠ none → Stat env fs filename ≠ none →
      Stat env fs (pIDFile env) = none →
      safetyCheck env fs filename = some ("another proccess is running, check " ++ pIDFile env) ∧
      mentions ("another proccess is running, check " ++ pIDFile env) (pIDFile env)) ∧
    (Stat env fs (staging filename) ≠ none → Stat env fs filename ≠ none →
      Stat env fs (pIDFile env) ≠ none → safetyCheck env fs filename = none) ∧
    (∀ path, Stat env fs path = none ↔
      pathError env path = none ∧ present env fs path = true) ∧
    (∀ fs2 : FS, (Stat env fs2 (staging filename) = none ↔ Stat env fs (staging filename) = none) →
      (Stat env fs2 filename = none ↔ Stat env fs filename = none) →
      (Stat env fs2 (pIDFile env) = none ↔ Stat env fs (pIDFile env) = none) →
      safetyCheck env fs2 filename = safetyCheck env fs filename) := by
  refine ⟨?_, ?_, ?_, ?_, Stat_ok_iff env fs, ?_⟩
  · intro h1
    simp only [staging] at h1
    exact ⟨by simp [safetyCheck, staging, h1], mentions_head _ _⟩
  · intro h1 h2
    refine ⟨?_, mentions_head _ _⟩
    simp only [staging] at h1
    simp [safetyCheck, h1, h2, Option.isNone_iff_eq_none]
  · intro h1 h2 h3
    refine ⟨?_, mentions_tail _ _⟩
    simp only [staging] at h1
    simp [safetyCheck, h1, h2, h3, Option.isNone_iff_eq_none]
  · intro h1 h2 h3
    simp only [staging] at h1
    simp [safetyCheck, h1, h2, h3, Option.isNone_iff_eq_none]
  · intro fs2 h1 h2 h3
    simp only [staging] at h1
    simp only [safetyCheck, Option.isNone_iff_eq_none, h1, h2, h3]

/-- C3 does not hold as written. In the sample the lock marker `/opt/fetch/.pid` exists
but the process cannot reach it, so `os.Stat` on it returns an error; neither the
staging path nor the target exists; and `safetyCheck` returns no error. -/
theorem unreachable_marker_passes :
    present sealedInstall held.fs (staging "orders.xml") = false ∧
    present sealedInstall held.fs "orders.xml" = false ∧
    present sealedInstall held.fs (pIDFile sealedInstall) = true ∧
    Stat sealedInstall held.fs (pIDFile sealedInstall) =
      some "stat /opt/fetch/.pid: permission denied" ∧
    safetyCheck sealedInstall held.fs "orders.xml" = none ∧
    ¬ VerdictByExistence := by
  refine ⟨by decide, by decide, by decide, by decide, by decide, ?_⟩
  intro hall
  have h := (hall sealedInstall held.fs "orders.xml").2.2.1 (by decide) (by decide) (by decide)
  revert h
  decide

/-! ### The archive writer -/

theorem WriteFile_other (env : Env) (fs : FS) (name data : String) (q : File)
    (h : q ≠ resolve env name) : (WriteFile env fs name data).2 q = fs q := by
  unfold WriteFile
  cases pathError env name with
  | some err => rfl
  | none =>
    cases env.writeFault name with
    | none => exact set_other fs _ q _ h
    | some f =>
      cases f with
      | atOpen err => rfl
      | atWrite written err => exact set_other fs _ q _ h

theorem WriteFile_ok (env : Env) (fs : FS) (name data : String)
    (h : (WriteFile env fs name data).1 = none) :
    pathError env name = none ∧
    (WriteFile env fs name data).2 = fs.set (resolve env name) (some data) := by
  unfold WriteFile at *
  cases hp : pathError env name with
  | some err => rw [hp] at h; simp at h
  | none =>
    rw [hp] at h
    cases hf : env.writeFault name with
    | none => exact ⟨rfl, rfl⟩
    | some f =>
      rw [hf] at h
      cases f <;> simp at h

theorem Rename_failed (env : Env) (fs : FS) (a b e : String)
    (h : (Rename env fs a b).1 = some e) : (Rename env fs a b).2 = fs := by
  unfold Rename at *
  cases hpa : pathError env a with
  | some err => rfl
  | none =>
    cases hpb : pathError env b with
    | some err => rfl
    | none =>
      rw [hpa, hpb] at h
      simp only at h ⊢
      cases hr : env.renameFault a b with
      | some err => rfl
      | none =>
        rw [hr] at h
        simp only at h ⊢
        cases hc : fs (resolve env a) with
        | none => rfl
        | some content =>
          rw [hc] at h
          simp only at h ⊢
          split at h <;> simp at h

theorem Rename_ok (env : Env) (fs : FS) (a b : String)
    (h : (Rename env fs a b).1 = none) (hne : resolve env a ≠ resolve env b) :
    ∃ content, fs (resolve env a) = some content ∧ pathError env b = none ∧
      (Rename env fs a b).2 =
        (fs.set (resolve env b) (some content)).set (resolve env a) none := by
  unfold Rename at *
  cases hpa : pathError env a with
  | some err => rw [hpa] at h; simp at h
  | none =>
    cases hpb : pathError env b with
    | some err => rw [hpa, hpb] at h; simp at h
    | none =>
      rw [hpa, hpb] at h
      simp only at h ⊢
      cases hr : env.renameFault a b with
      | some err => rw [hr] at h; simp at h
      | none =>
        rw [hr] at h
        simp only at h ⊢
        cases hc : fs (resolve env a) with
        | none => rw [hc] at h; simp at h
        | some content => exact ⟨content, by simp, by simp, by simp [hne]⟩

theorem safetyCheck_staged (env : Env) (fs : FS) (filename : String)
    (hp : pathError env (staging filename) = none)
    (h : (fs (resolve env (staging filename))).isSome = true) :
    safetyCheck env fs filename = some (staging filename ++ " exists") := by
  have hstat : Stat env fs (staging filename) = none :=
    (Stat_ok_iff env fs _).2 ⟨hp, h⟩
  simp only [staging] at hstat
  simp [safetyCheck, staging, hstat]

/-- The steps of `saveOrders` once the serialization has succeeded. -/
theorem saveOrders_steps (env : Env) (fs : FS) (filename : String) (orders : List order)
    (data : String) (hm : env.xmlMarshal orders = .ok data) :
    saveOrders env fs filename orders =
      match (WriteFile env fs (staging filename) data).1 with
      | some err =>
        (some ("error writing file " ++ staging filename ++ ": " ++ err),
          (WriteFile env fs (staging filename) data).2)
      | none =>
        match (Rename env (WriteFile env fs (staging filename) data).2
            (staging filename) filename).1 with
        | some err =>
          (some ("error writing file " ++ filename ++ ": " ++ err),
            (Rename env (WriteFile env fs (staging filename) data).2
              (staging filename) filename).2)
        | none =>
          (none, (Rename env (WriteFile env fs (staging filename) data).2
            (staging filename) filename).2) := by
  simp only [saveOrders, hm]
  rw [show filename ++ ".tmp" = staging filename from rfl]
  generalize WriteFile env fs (staging filename) data = r
  obtain ⟨e, f⟩ := r
  cases e with
  | some err => rfl
  | none =>
    simp only
    generalize Rename env f (staging filename) filename = r2
    obtain ⟨e2, f2⟩ := r2
    cases e2 <;> rfl

/-- C2. `saveOrders` either succeeds, and then the target holds the whole serialization
and nothing is left at the staging path, or fails, and then the target is as it was and
the error names the staging path when the staging write failed and the target path when
the rename failed (a failed serialization touches no file). Whenever the staging
write has succeeded and the rename has not happened, the target is as it was and
`safetyCheck` on the same target returns the staging-file block. -/
theorem saveOrders_atomic (env : Env) (fs : FS) (filename : String) (orders : List order) :
    ((∃ data, env.xmlMarshal orders = .ok data ∧
        (saveOrders env fs filename orders).1 = none ∧
        (saveOrders env fs filename orders).2 (resolve env filename) = some data ∧
        (saveOrders env fs filename orders).2 (resolve env (staging filename)) = none) ∨
     (∃ msg, (saveOrders env fs filename orders).1 = some msg ∧
        (saveOrders env fs filename orders).2 (resolve env filename) =
          fs (resolve env filename) ∧
        (∀ err, env.xmlMarshal orders = .error err →
          (saveOrders env fs filename orders).2 = fs) ∧
        (∀ data, env.xmlMarshal orders = .ok data →
          (WriteFile env fs (staging filename) data).1 ≠ none →
          mentions msg (staging filename)) ∧
        (∀ data, env.xmlMarshal orders = .ok data →
          (WriteFile env fs (staging filename) data).1 = none →
          (Rename env (WriteFile env fs (staging filename) data).2
            (staging filename) filename).1 ≠ none ∧
          mentions msg filename ∧
          safetyCheck env (saveOrders env fs filename orders).2 filename =
            some (staging filename ++ " exists")))) ∧
    (∀ data, (WriteFile env fs (staging filename) data).1 = none →
      (WriteFile env fs (staging filename) data).2 (resolve env filename) =
        fs (resolve env filename) ∧
      safetyCheck env (WriteFile env fs (staging filename) data).2 filename =
        some (staging filename ++ " exists")) := by
  have hne : resolve env filename ≠ resolve env (staging filename) :=
    fun h => staging_ne env filename h.symm
  have hcrash : ∀ data, (WriteFile env fs (staging filename) data).1 = none →
      (WriteFile env fs (staging filename) data).2 (resolve env filename) =
        fs (resolve env filename) ∧
      safetyCheck env (WriteFile env fs (staging filename) data).2 filename =
        some (staging filename ++ " exists") := by
    intro data hw
    obtain ⟨hp, hfs1⟩ := WriteFile_ok env fs _ data hw
    rw [hfs1]
    exact ⟨set_other fs _ _ _ hne, safetyCheck_staged env _ filename hp (by simp [set_same])⟩
  refine ⟨?_, hcrash⟩
  cases hm : env.xmlMarshal orders with
  | error err =>
    right
    refine ⟨"error converting to xml: " ++ err, ?_, ?_, ?_, ?_, ?_⟩
    · simp [saveOrders, hm]
    · simp [saveOrders, hm]
    · intro _ _; simp [saveOrders, hm]
    · intro data hd; cases hd
    · intro data hd; cases hd
  | ok data =>
    have hsteps := saveOrders_steps env fs filename orders data hm
    cases hw : (WriteFile env fs (staging filename) data).1 with
    | some werr =>
      right
      rw [hw] at hsteps
      simp only at hsteps
      refine ⟨_, by rw [hsteps], ?_, ?_, ?_, ?_⟩
      · rw [hsteps]; exact WriteFile_other env fs _ data _ hne
      · intro err he; cases he
      · intro d _ _; exact mentions_wrapped _ _ _ _
      · intro d hd hok
        cases hd
        rw [hw] at hok; cases hok
    | none =>
      rw [hw] at hsteps
      simp only at hsteps
      obtain ⟨hp, hfs1⟩ := WriteFile_ok env fs _ data hw
      cases hr : (Rename env (WriteFile env fs (staging filename) data).2
          (staging filename) filename).1 with
      | some rerr =>
        right
        rw [hr] at hsteps
        simp only at hsteps
        have hsame := Rename_failed env _ _ _ rerr hr
        refine ⟨_, by rw [hsteps], ?_, ?_, ?_, ?_⟩
        · rw [hsteps]
          simp only
          rw [hsame]
          exact (hcrash data hw).1
        · intro err he; cases he
        · intro d hd hbad
          cases hd
          exact absurd hw hbad
        · intro d hd _
          cases hd
          refine ⟨by rw [hr]; simp, mentions_wrapped _ _ _ _, ?_⟩
          rw [hsteps]
          simp only
          rw [hsame]
          exact (hcrash data hw).2
      | none =>
        left
        rw [hr] at hsteps
        simp only at hsteps
        obtain ⟨content, hc, _, hfs2⟩ := Rename_ok env _ _ _ hr (staging_ne env filename)
        have hcontent : content = data := by
          rw [hfs1, set_same] at hc
          exact (Option.some.inj hc).symm
        subst hcontent
        refine ⟨content, rfl, by rw [hsteps], ?_, ?_⟩
        · rw [hsteps]
          simp only
          rw [hfs2, set_other _ _ _ _ hne, set_same]
        · rw [hsteps]
          simp only
          rw [hfs2, set_same]

/-! ### The run -/

/-- The six ways the statements after the `defer` end, each with the world it leaves. -/
theorem pipeline_cases (env : Env) (filename credentials : String) (w : World) :
    (∃ e, setupFirestore env credentials = some e ∧
      pipeline env filename credentials w =
        (.panic e, ⟨w.fs, w.store, w.trace ++ [.setupFirestore credentials false]⟩)) ∨
    (∃ e, setupFirestore env credentials = none ∧ fetchDocuments env w.store = .error e ∧
      pipeline env filename credentials w =
        (.panic e, ⟨w.fs, w.store,
          w.trace ++ [.setupFirestore credentials true, .fetchDocuments none]⟩)) ∨
    (∃ e, setupFirestore env credentials = none ∧ fetchDocuments env w.store = .ok w.store ∧
      parseOrders w.store = .error e ∧
      pipeline env filename credentials w =
        (.panic e, ⟨w.fs, w.store,
          w.trace ++ [.setupFirestore credentials true, .fetchDocuments (some w.store),
            .parseOrders w.store false]⟩)) ∨
    (∃ e orders fs1, setupFirestore env credentials = none ∧
      fetchDocuments env w.store = .ok w.store ∧ parseOrders w.store = .ok orders ∧
      saveOrders env w.fs filename orders = (some e, fs1) ∧
      pipeline env filename credentials w =
        (.panic e, ⟨fs1, w.store,
          w.trace ++ [.setupFirestore credentials true, .fetchDocuments (some w.store),
            .parseOrders w.store true, .saveOrders filename orders false]⟩)) ∨
    (∃ e orders fs1 store1, setupFirestore env credentials = none ∧
      fetchDocuments env w.store = .ok w.store ∧ parseOrders w.store = .ok orders ∧
      saveOrders env w.fs filename orders = (none, fs1) ∧
      deleteDocuments env w.store w.store = (some e, store1) ∧
      pipeline env filename credentials w =
        (.panic e, ⟨fs1, store1,
          w.trace ++ [.setupFirestore credentials true, .fetchDocuments (some w.store),
            .parseOrders w.store true, .saveOrders filename orders true,
            .deleteDocuments w.store false]⟩)) ∨
    (∃ orders fs1 store1, setupFirestore env credentials = none ∧
      fetchDocuments env w.store = .ok w.store ∧ parseOrders w.store = .ok orders ∧
      saveOrders env w.fs filename orders = (none, fs1) ∧
      deleteDocuments env w.store w.store = (none, store1) ∧
      pipeline env filename credentials w =
        (.done, ⟨fs1, store1,
          w.trace ++ [.setupFirestore credentials true, .fetchDocuments (some w.store),
            .parseOrders w.store true, .saveOrders filename orders true,
            .deleteDocuments w.store true]⟩)) := by
  cases hsetup : setupFirestore env credentials with
  | some e =>
    left
    exact ⟨e, rfl, by simp [pipeline, hsetup, World.log]⟩
  | none =>
    right
    cases hget : env.getAll with
    | some e =>
      left
      have hfetch : fetchDocuments env w.store = .error ("error retrieving dordersocuments: " ++ e) := by
        simp [fetchDocuments, hget]
      exact ⟨_, rfl, hfetch, by simp [pipeline, hsetup, World.log, hfetch]⟩
    | none =>
      right
      have hfetch : fetchDocuments env w.store = .ok w.store := by
        simp [fetchDocuments, hget]
      cases hparse : parseOrders w.store with
      | error e =>
        left
        exact ⟨e, rfl, hfetch, rfl, by simp [pipeline, hsetup, World.log, hfetch, hparse]⟩
      | ok orders =>
        right
        cases hsave : saveOrders env w.fs filename orders with
        | mk serr fs1 =>
          cases serr with
          | some e =>
            left
            exact ⟨e, orders, fs1, rfl, hfetch, rfl, hsave,
              by simp [pipeline, hsetup, World.log, hfetch, hparse, hsave]⟩
          | none =>
            right
            cases hdel : deleteDocuments env w.store w.store with
            | mk derr store1 =>
              cases derr with
              | some e =>
                left
                exact ⟨e, orders, fs1, store1, rfl, hfetch, rfl, hsave, rfl,
                  by simp [pipeline, hsetup, World.log, hfetch, hparse, hsave, hdel]⟩
              | none =>
                right
                exact ⟨orders, fs1, store1, rfl, hfetch, rfl, hsave, rfl,
                  by simp [pipeline, hsetup, World.log, hfetch, hparse, hsave, hdel]⟩

/-- A run whose safety check passes: the marker is written, the statements after the
`defer` run, and the deferred removal of the marker comes last. -/
theorem main_passed (env : Env) (prog filename credentials : String) (w : World)
    (h : safetyCheck env w.fs filename = none) :
    main env [prog, filename, credentials] w =
      ((pipeline env filename credentials (locked env w)).1,
        { fs := (Remove env (pipeline env filename credentials (locked env w)).2.fs
            (pIDFile env)).2,
          store := (pipeline env filename credentials (locked env w)).2.store,
          trace := (pipeline env filename credentials (locked env w)).2.trace ++
            [.removePID (pIDFile env)
              (Remove env (pipeline env filename credentials (locked env w)).2.fs
                (pIDFile env)).1.isNone] }) := by
  simp [main, h, locked, World.log]

/-- C4. A run started where `safetyCheck` blocks (`os.Stat` succeeds on a stale staging
file, on an existing archive or on an existing lock marker) panics with the verdict and
leaves the world as it was: no call is added to the trace (no setup, fetch, transform,
archive write or delete, and no write or removal of the marker), no file and no
document changes, so a marker held by another run is still there. -/
theorem main_blocked (env : Env) (prog filename credentials : String) (w : World)
    (h : Stat env w.fs (staging filename) = none ∨ Stat env w.fs filename = none ∨
      Stat env w.fs (pIDFile env) = none) :
    ∃ msg, safetyCheck env w.fs filename = some msg ∧
      main env [prog, filename, credentials] w = (.panic msg, w) ∧
      (main env [prog, filename, credentials] w).2.trace = w.trace ∧
      (main env [prog, filename, credentials] w).2.fs = w.fs ∧
      (main env [prog, filename, credentials] w).2.store = w.store ∧
      (main env [prog, filename, credentials] w).2.fs (resolve env (pIDFile env)) =
        w.fs (resolve env (pIDFile env)) := by
  have hblock : ∃ msg, safetyCheck env w.fs filename = some msg := by
    simp only [staging] at h
    unfold safetyCheck
    by_cases h1 : Stat env w.fs (filename ++ ".tmp") = none
    · exact ⟨filename ++ ".tmp" ++ " exists", by simp [h1]⟩
    · by_cases h2 : Stat env w.fs filename = none
      · exact ⟨filename ++ " exists", by simp [h1, h2, Option.isNone_iff_eq_none]⟩
      · have h3 : Stat env w.fs (pIDFile env) = none := by
          rcases h with h | h | h
          · exact absurd h h1
          · exact absurd h h2
          · exact h
        exact ⟨"another proccess is running, check " ++ pIDFile env,
          by simp [h1, h2, h3, Option.isNone_iff_eq_none]⟩
  obtain ⟨msg, hmsg⟩ := hblock
  have hmain : main env [prog, filename, credentials] w = (.panic msg, w) := by
    simp [main, hmsg]
  exact ⟨msg, hmsg, hmain, by rw [hmain], by rw [hmain], by rw [hmain], by rw [hmain]⟩

theorem Remove_clears (env : Env) (fs : FS) (name : String)
    (h : (Remove env fs name).1 = none ∨
      (pathError env name = none ∧ env.removeFault name = none)) :
    (Remove env fs name).2 (resolve env name) = none := by
  unfold Remove at *
  cases hp : pathError env name with
  | some err =>
    rw [hp] at h
    rcases h with h | ⟨h, _⟩ <;> simp at h
  | none =>
    rw [hp] at h
    simp only at h ⊢
    cases hf : env.removeFault name with
    | some err =>
      rw [hf] at h
      rcases h with h | ⟨_, h⟩ <;> simp at h
    | none =>
      simp only
      cases hc : fs (resolve env name) with
      | none => exact hc
      | some c => exact set_same _ _ _

/-- C5. In a run whose safety check passes (whether or not the marker write succeeds),
however the statements after the `defer` end (normal return, or a panic in setup,
fetch, transform, archive write or purge), `os.Remove` on the lock marker is the last
call of the run: the run ends as those statements ended, the last entry of the trace is
that call with its outcome, and the files at exit are the files `os.Remove` left. So
whenever that removal succeeds the marker does not exist at exit, and the same holds
whenever the marker is reachable and `os.Remove` has no fault on it. -/
theorem main_releases (env : Env) (prog filename credentials : String) (w : World)
    (hsafe : safetyCheck env w.fs filename = none) :
    (main env [prog, filename, credentials] w).1 =
      (pipeline env filename credentials (locked env w)).1 ∧
    (main env [prog, filename, credentials] w).2.trace =
      (pipeline env filename credentials (locked env w)).2.trace ++
        [Event.removePID (pIDFile env)
          (Remove env (pipeline env filename credentials (locked env w)).2.fs
            (pIDFile env)).1.isNone] ∧
    (main env [prog, filename, credentials] w).2.fs =
      (Remove env (pipeline env filename credentials (locked env w)).2.fs (pIDFile env)).2 ∧
    ((Remove env (pipeline env filename credentials (locked env w)).2.fs (pIDFile env)).1 = none →
      (main env [prog, filename, credentials] w).2.fs (resolve env (pIDFile env)) = none) ∧
    (pathError env (pIDFile env) = none → env.removeFault (pIDFile env) = none →
      (main env [prog, filename, credentials] w).2.fs (resolve env (pIDFile env)) = none) := by
  rw [main_passed env prog filename credentials w hsafe]
  refine ⟨rfl, rfl, rfl, ?_, ?_⟩
  · intro hok
    exact Remove_clears env _ _ (Or.inl hok)
  · intro hp hf
    exact Remove_clears env _ _ (Or.inr ⟨hp, hf⟩)

/-- The loop of `deleteDocuments` puts the reference of each document into the batch,
in order. -/
theorem batchDeletes_eq (documents : List DocumentSnapshot) :
    batchDeletes documents = documents.map (fun d => d.Ref) := by
  induction documents with
  | nil => rfl
  | cons d rest ih => simp [batchDeletes, ih]

/-- C1. In a run of `main` with two arguments, with `calls` the calls of that run:
`deleteDocuments` is called at most once and `fetchDocuments` at most once; a call of
`deleteDocuments` comes after a call of `saveOrders` that returned no error and after
the call of `fetchDocuments`, and is given exactly the documents that call returned (the
batch holding their references, one each, in order); and when the setup, the fetch, the
transform or `saveOrders` fails there is no call of `deleteDocuments`. -/
theorem delete_after_commit (env : Env) (prog filename credentials : String) (w : World) :
    ∃ calls, (main env [prog, filename, credentials] w).2.trace = w.trace ++ calls ∧
      (calls.filter Event.isDelete).length ≤ 1 ∧
      (calls.filter Event.isFetch).length ≤ 1 ∧
      (∀ documents ok, Event.deleteDocuments documents ok ∈ calls →
        ∃ before after orders, calls = before ++ Event.deleteDocuments documents ok :: after ∧
          Event.saveOrders filename orders true ∈ before ∧
          Event.fetchDocuments (some documents) ∈ before ∧
          (∀ e ∈ after, e.isDelete = false ∧ e.isFetch = false) ∧
          batchDeletes documents = documents.map (fun d => d.Ref)) ∧
      ((∃ e ∈ calls, e.failedBeforePurge = true) → ∀ e ∈ calls, e.isDelete = false) := by
  cases hs : safetyCheck env w.fs filename with
  | some msg =>
    refine ⟨[], ?_, by simp, by simp, by simp, by simp⟩
    simp [main, hs]
  | none =>
    rw [main_passed env prog filename credentials w hs]
    rcases pipeline_cases env filename credentials (locked env w) with
      ⟨e, _, hp⟩ | ⟨e, _, _, hp⟩ | ⟨e, _, _, _, hp⟩ | ⟨e, orders, fs1, _, _, _, _, hp⟩ |
      ⟨e, orders, fs1, store1, _, _, _, _, _, hp⟩ | ⟨orders, fs1, store1, _, _, _, _, _, hp⟩
    · refine ⟨_, by rw [hp]; simp [locked]; rfl, ?_, ?_, ?_, ?_⟩ <;>
        simp [Event.isDelete, Event.isFetch, Event.failedBeforePurge]
    · refine ⟨_, by rw [hp]; simp [locked]; rfl, ?_, ?_, ?_, ?_⟩ <;>
        simp [Event.isDelete, Event.isFetch, Event.failedBeforePurge]
    · refine ⟨_, by rw [hp]; simp [locked]; rfl, ?_, ?_, ?_, ?_⟩ <;>
        simp [Event.isDelete, Event.isFetch, Event.failedBeforePurge]
    · refine ⟨_, by rw [hp]; simp [locked]; rfl, ?_, ?_, ?_, ?_⟩ <;>
        simp [Event.isDelete, Event.isFetch, Event.failedBeforePurge]
    · refine ⟨_, by rw [hp]; simp [locked]; rfl, ?_, ?_, ?_, ?_⟩
      · simp [Event.isDelete]
      · simp [Event.isFetch]
      · intro documents ok hmem
        simp at hmem
        obtain ⟨hd, hok⟩ := hmem
        subst hd hok
        exact ⟨[.writePID (pIDFile env) (toString env.pid)
              (WriteFile env w.fs (pIDFile env) (toString env.pid)).1.isNone,
            .setupFirestore credentials true, .fetchDocuments (some w.store),
            .parseOrders w.store true, .saveOrders filename orders true],
          [.removePID (pIDFile env) (Remove env fs1 (pIDFile env)).1.isNone], orders,
          by simp, by simp, by simp, by simp [Event.isDelete, Event.isFetch],
          batchDeletes_eq _⟩
      · simp [Event.isDelete, Event.isFetch, Event.failedBeforePurge]
    · refine ⟨_, by rw [hp]; simp [locked]; rfl, ?_, ?_, ?_, ?_⟩
      · simp [Event.isDelete]
      · simp [Event.isFetch]
      · intro documents ok hmem
        simp at hmem
        obtain ⟨hd, hok⟩ := hmem
        subst hd hok
        exact ⟨[.writePID (pIDFile env) (toString env.pid)
              (WriteFile env w.fs (pIDFile env) (toString env.pid)).1.isNone,
            .setupFirestore credentials true, .fetchDocuments (some w.store),
            .parseOrders w.store true, .saveOrders filename orders true],
          [.removePID (pIDFile env) (Remove env fs1 (pIDFile env)).1.isNone], orders,
          by simp, by simp, by simp, by simp [Event.isDelete, Event.isFetch],
          batchDeletes_eq _⟩
      · simp [Event.isDelete, Event.isFetch, Event.failedBeforePurge]

/-! ### The record transformer -/

theorem parseProducts_strings (xs : List Value) (payloads : List String)
    (h : payloadsOf xs = some payloads) :
    parseProducts xs = .ok (payloads.map (fun p => (Json.Unmarshal p product.zero).1)) := by
  induction xs generalizing payloads with
  | nil =>
    simp [payloadsOf] at h
    subst h
    rfl
  | cons x rest ih =>
    cases x with
    | str payload =>
      simp only [payloadsOf, Option.map_eq_some'] at h
      obtain ⟨tl, htl, rfl⟩ := h
      simp [parseProducts, ih tl htl]
    | null => simp [payloadsOf] at h
    | bool b => simp [payloadsOf] at h
    | int n => simp [payloadsOf] at h
    | time t => simp [payloadsOf] at h
    | array ys => simp [payloadsOf] at h
    | map kvs => simp [payloadsOf] at h
    | other t => simp [payloadsOf] at h

theorem parseOrder_shaped (d : DocumentSnapshot) (uid : String) (date : Time)
    (payloads : List String) (h : shapeOf d = some (uid, date, payloads)) :
    parseOrder d = .ok (order.mk Name.zero uid date
      (payloads.map (fun p => (Json.Unmarshal p product.zero).1))) := by
  unfold shapeOf at h
  split at h
  · rename_i u t xs hu ht hx
    simp only [Option.map_eq_some'] at h
    obtain ⟨ps, hps, heq⟩ := h
    simp only [Prod.mk.injEq] at heq
    obtain ⟨rfl, rfl, rfl⟩ := heq
    simp [parseOrder, hu, ht, hx, parseProducts_strings xs ps hps]
  · cases h

theorem parseOrders_index (docs : List DocumentSnapshot) (orders : List order)
    (h : parseOrders docs = .ok orders) :
    orders.length = docs.length ∧
    ∀ (i : Nat) (d : DocumentSnapshot), docs[i]? = some d →
      ∃ o, orders[i]? = some o ∧ parseOrder d = .ok o := by
  induction docs generalizing orders with
  | nil =>
    simp [parseOrders] at h
    subst h
    simp
  | cons d rest ih =>
    unfold parseOrders at h
    cases hd : parseOrder d with
    | error e => rw [hd] at h; cases h
    | ok o =>
      rw [hd] at h
      cases hr : parseOrders rest with
      | error e => rw [hr] at h; cases h
      | ok os =>
        rw [hr] at h
        simp only [Except.ok.injEq] at h
        subst h
        obtain ⟨hlen, hidx⟩ := ih os hr
        refine ⟨by simp [hlen], ?_⟩
        intro i x hx
        cases i with
        | zero =>
          simp at hx
          subst hx
          exact ⟨o, by simp, hd⟩
        | succ k =>
          simp at hx
          obtain ⟨o2, ho2, hp⟩ := hidx k x hx
          exact ⟨o2, by simpa using ho2, hp⟩

theorem parseOrders_total (docs : List DocumentSnapshot) (h : ∀ d ∈ docs, shapeOf d ≠ none) :
    ∃ orders, parseOrders docs = .ok orders := by
  induction docs with
  | nil => exact ⟨[], rfl⟩
  | cons d rest ih =>
    obtain ⟨os, hos⟩ := ih (fun x hx => h x (List.mem_cons_of_mem _ hx))
    cases hs : shapeOf d with
    | none => exact absurd hs (h d (List.mem_cons_self _ _))
    | some s =>
      obtain ⟨uid, date, payloads⟩ := s
      exact ⟨order.mk Name.zero uid date
          (payloads.map (fun p => (Json.Unmarshal p product.zero).1)) :: os,
        by simp [parseOrders, parseOrder_shaped d uid date payloads hs, hos]⟩

theorem parseOrders_positions (docs : List DocumentSnapshot) (orders : List order)
    (h : parseOrders docs = .ok orders) (i : Nat) (d : DocumentSnapshot) (uid : String)
    (date : Time) (payloads : List String) (hd : docs[i]? = some d)
    (hs : shapeOf d = some (uid, date, payloads)) :
    orders[i]? = some (order.mk Name.zero uid date
      (payloads.map (fun p => (Json.Unmarshal p product.zero).1))) := by
  obtain ⟨o, ho, hp⟩ := (parseOrders_index docs orders h).2 i d hd
  rw [parseOrder_shaped d uid date payloads hs] at hp
  simp only [Except.ok.injEq] at hp
  rw [ho, ← hp]

/-- C8. For well-shaped documents `parseOrders` returns as many orders as documents;
the i-th order has the uid and date of the i-th document and as many products as that
document has payloads, the j-th product being what `json.Unmarshal` makes of the j-th
payload. (A document without payloads gives an order without products, at its place.) -/
theorem parseOrders_shape (docs : List DocumentSnapshot) (h : ∀ d ∈ docs, shapeOf d ≠ none) :
    ∃ orders, parseOrders docs = .ok orders ∧ orders.length = docs.length ∧
      ∀ (i : Nat) (d : DocumentSnapshot) (uid : String) (date : Time) (payloads : List String),
        docs[i]? = some d → shapeOf d = some (uid, date, payloads) →
        ∃ o, orders[i]? = some o ∧ o.UID = uid ∧ o.Date = date ∧
          o.Products.length = payloads.length ∧
          (payloads = [] → o.Products = []) ∧
          ∀ (j : Nat) (payload : String), payloads[j]? = some payload →
            o.Products[j]? = some (Json.Unmarshal payload product.zero).1 := by
  obtain ⟨orders, hos⟩ := parseOrders_total docs h
  refine ⟨orders, hos, (parseOrders_index docs orders hos).1, ?_⟩
  intro i d uid date payloads hd hs
  refine ⟨_, parseOrders_positions docs orders hos i d uid date payloads hd hs, rfl, rfl,
    by simp, ?_, ?_⟩
  · intro hnil; subst hnil; rfl
  · intro j payload hj
    simp [List.getElem?_map, hj]

/-- C8, on the two sample documents: `u1` with the one payload for `(p1, 3)` and `u2`
with no payload give two orders in that order, the first with the single product
`(p1, 3)`, the second with none. -/
theorem parseOrders_shape_witness :
    (∀ d ∈ [docA, docB], shapeOf d ≠ none) ∧
    (∃ orders, parseOrders [docA, docB] = .ok orders ∧ orders.length = [docA, docB].length ∧
      ∀ (i : Nat) (d : DocumentSnapshot) (uid : String) (date : Time) (payloads : List String),
        [docA, docB][i]? = some d → shapeOf d = some (uid, date, payloads) →
        ∃ o, orders[i]? = some o ∧ o.UID = uid ∧ o.Date = date ∧
          o.Products.length = payloads.length ∧
          (payloads = [] → o.Products = []) ∧
          ∀ (j : Nat) (payload : String), payloads[j]? = some payload →
            o.Products[j]? = some (Json.Unmarshal payload product.zero).1) ∧
    parseOrders [docA, docB] = .ok
      [order.mk Name.zero "u1" ⟨1704067200000000000⟩ [product.mk Name.zero "p1" 3],
       order.mk Name.zero "u2" ⟨1704153600000000000⟩ []] :=
  have hshape : ∀ d ∈ [docA, docB], shapeOf d ≠ none := by
    intro d hd
    simp only [List.mem_cons, List.mem_singleton, List.not_mem_nil, or_false] at hd
    rcases hd with rfl | rfl <;> decide
  ⟨hshape, parseOrders_shape [docA, docB] hshape, by rfl⟩

/-- C9 does not hold as written. On the sample document `docC` the first payload is
valid JSON with a string for the amount: `json.Unmarshal` returns an error for it, yet
the item at its position holds the identifier `p1` that did decode, not the zero-valued
item. -/
theorem decode_failure_not_zero :
    (Json.Unmarshal mistypedPayload product.zero).2 = some (Json.JsonError.typeMismatch "string") ∧
    parseOrders [docC] = .ok
      [order.mk Name.zero "u3" ⟨1704240000000000000⟩
        [product.mk Name.zero "p1" 0, product.zero, product.mk Name.zero "p2" 7]] ∧
    product.mk Name.zero "p1" 0 ≠ product.zero ∧
    ¬ ZeroItemOnDecodeFailure := by
  have hrun : parseOrders [docC] = .ok
      [order.mk Name.zero "u3" ⟨1704240000000000000⟩
        [product.mk Name.zero "p1" 0, product.zero, product.mk Name.zero "p2" 7]] := by rfl
  have hshape : ∀ d ∈ [docC], shapeOf d ≠ none := by
    intro d hd
    simp only [List.mem_singleton] at hd
    subst hd
    decide
  refine ⟨by rfl, hrun, by decide, ?_⟩
  intro hall
  have hzero := hall [docC] _ hshape hrun 0 0 docC "u3" ⟨1704240000000000000⟩
    [mistypedPayload, truncatedPayload, "\x7b\"id\":\"p2\",\"amount\":7\x7d"]
    mistypedPayload _ (by rfl) (by rfl) (by rfl) (by decide) (by rfl)
  revert hzero
  decide

/-- C9, amended. For well-shaped documents a payload whose decoding fails does not stop
`parseOrders`: every position, whatever happens at the others, holds what
`json.Unmarshal` left in a zero-valued item for the payload of that position. For a
payload that is not valid JSON that is the zero-valued item; for a payload that is valid
JSON it is what storing the parsed value into a zero-valued item gives, the fields that
did decode included. -/
theorem parseOrders_decode_failure (docs : List DocumentSnapshot)
    (h : ∀ d ∈ docs, shapeOf d ≠ none) :
    ∃ orders, parseOrders docs = .ok orders ∧
      ∀ (i : Nat) (d : DocumentSnapshot) (uid : String) (date : Time) (payloads : List String),
        docs[i]? = some d → shapeOf d = some (uid, date, payloads) →
        ∃ o, orders[i]? = some o ∧ o.Products.length = payloads.length ∧
          ∀ (j : Nat) (payload : String), payloads[j]? = some payload →
            o.Products[j]? = some (Json.Unmarshal payload product.zero).1 ∧
            (Json.parse payload = none → o.Products[j]? = some product.zero) ∧
            (∀ v, Json.parse payload = some v →
              o.Products[j]? = some (Json.storeProduct v product.zero).1) := by
  obtain ⟨orders, hos⟩ := parseOrders_total docs h
  refine ⟨orders, hos, ?_⟩
  intro i d uid date payloads hd hs
  refine ⟨_, parseOrders_positions docs orders hos i d uid date payloads hd hs, by simp, ?_⟩
  intro j payload hj
  have hitem : (List.map (fun p => (Json.Unmarshal p product.zero).1) payloads)[j]? =
      some (Json.Unmarshal payload product.zero).1 := by
    simp [List.getElem?_map, hj]
  refine ⟨hitem, ?_, ?_⟩
  · intro hbad
    rw [hitem]
    simp only [Json.Unmarshal, hbad]
  · intro v hv
    rw [hitem]
    simp only [Json.Unmarshal, hv]

/-- C9, amended, on the sample document `docC`: a mistyped payload, a truncated payload
and a good payload give three items, the first keeping the identifier that decoded,
the second zero-valued, the third decoded in full. -/
theorem parseOrders_decode_failure_witness :
    (∀ d ∈ [docC], shapeOf d ≠ none) ∧
    (∃ orders, parseOrders [docC] = .ok orders ∧
      ∀ (i : Nat) (d : DocumentSnapshot) (uid : String) (date : Time) (payloads : List String),
        [docC][i]? = some d → shapeOf d = some (uid, date, payloads) →
        ∃ o, orders[i]? = some o ∧ o.Products.length = payloads.length ∧
          ∀ (j : Nat) (payload : String), payloads[j]? = some payload →
            o.Products[j]? = some (Json.Unmarshal payload product.zero).1 ∧
            (Json.parse payload = none → o.Products[j]? = some product.zero) ∧
            (∀ v, Json.parse payload = some v →
              o.Products[j]? = some (Json.storeProduct v product.zero).1)) :=
  have hshape : ∀ d ∈ [docC], shapeOf d ≠ none := by
    intro d hd
    simp only [List.mem_singleton] at hd
    subst hd
    decide
  ⟨hshape, parseOrders_decode_failure [docC] hshape⟩

/-! ### Failures before the commit -/

theorem parseOrder_lacksKey (d : DocumentSnapshot) (h : lacksKey d) :
    ∃ e, parseOrder d = .error e := by
  unfold parseOrder
  simp only
  cases hp : index d.Data "products" with
  | array xs =>
    simp only
    cases hx : parseProducts xs with
    | error e => exact ⟨e, rfl⟩
    | ok products =>
      simp only
      cases hu : index d.Data "uid" with
      | str uid =>
        simp only
        cases ht : index d.Data "date" with
        | time date =>
          rcases h with h | h
          · exact absurd hu (h uid)
          · exact absurd ht (h date)
        | null => exact ⟨_, rfl⟩
        | bool b => exact ⟨_, rfl⟩
        | int n => exact ⟨_, rfl⟩
        | str s => exact ⟨_, rfl⟩
        | array ys => exact ⟨_, rfl⟩
        | map kvs => exact ⟨_, rfl⟩
        | other t => exact ⟨_, rfl⟩
      | null => exact ⟨_, rfl⟩
      | bool b => exact ⟨_, rfl⟩
      | int n => exact ⟨_, rfl⟩
      | time t => exact ⟨_, rfl⟩
      | array ys => exact ⟨_, rfl⟩
      | map kvs => exact ⟨_, rfl⟩
      | other t => exact ⟨_, rfl⟩
  | null => exact ⟨_, rfl⟩
  | bool b => exact ⟨_, rfl⟩
  | int n => exact ⟨_, rfl⟩
  | str s => exact ⟨_, rfl⟩
  | time t => exact ⟨_, rfl⟩
  | map kvs => exact ⟨_, rfl⟩
  | other t => exact ⟨_, rfl⟩

theorem parseOrders_lacksKey (docs : List DocumentSnapshot) (h : ∃ d ∈ docs, lacksKey d) :
    ∃ e, parseOrders docs = .error e := by
  induction docs with
  | nil =>
    obtain ⟨d, hd, _⟩ := h
    cases hd
  | cons x rest ih =>
    unfold parseOrders
    cases hx : parseOrder x with
    | error e => exact ⟨e, rfl⟩
    | ok o =>
      simp only
      have hrest : ∃ d ∈ rest, lacksKey d := by
        obtain ⟨d, hd, hl⟩ := h
        rcases List.mem_cons.mp hd with rfl | hmem
        · obtain ⟨e, he⟩ := parseOrder_lacksKey d hl
          rw [he] at hx
          cases hx
        · exact ⟨d, hmem, hl⟩
      obtain ⟨e, he⟩ := ih hrest
      exact ⟨e, by rw [he]⟩

theorem Remove_other (env : Env) (fs : FS) (name : String) (q : File)
    (h : q ≠ resolve env name) : (Remove env fs name).2 q = fs q := by
  unfold Remove
  cases pathError env name with
  | some err => rfl
  | none =>
    simp only
    cases env.removeFault name with
    | some err => rfl
    | none =>
      simp only
      cases fs (resolve env name) with
      | none => rfl
      | some c => exact set_other fs _ q _ h

theorem locked_other (env : Env) (w : World) (q : File) (h : q ≠ resolve env (pIDFile env)) :
    (locked env w).fs q = w.fs q :=
  WriteFile_other env w.fs (pIDFile env) _ q h

theorem callsOf_eq (env : Env) (args : List String) (w : World) (calls : List Event)
    (h : (main env args w).2.trace = w.trace ++ calls) : callsOf env args w = calls := by
  simp [callsOf, h]

/-- The trace of a run whose safety check passes, as an extension of the trace before. -/
theorem main_passed_calls (env : Env) (prog filename credentials : String) (w : World)
    (h : safetyCheck env w.fs filename = none) (mid : List Event)
    (hmid : (pipeline env filename credentials (locked env w)).2.trace =
      (locked env w).trace ++ mid) :
    callsOf env [prog, filename, credentials] w =
      Event.writePID (pIDFile env) (toString env.pid)
          (WriteFile env w.fs (pIDFile env) (toString env.pid)).1.isNone :: mid ++
        [Event.removePID (pIDFile env)
          (Remove env (pipeline env filename credentials (locked env w)).2.fs
            (pIDFile env)).1.isNone] := by
  apply callsOf_eq
  rw [main_passed env prog filename credentials w h]
  simp only [hmid]
  simp [locked]

theorem fetch_error (env : Env) (store : List DocumentSnapshot) (h : env.getAll ≠ none) :
    ∃ e, fetchDocuments env store = .error e := by
  unfold fetchDocuments
  cases hg : env.getAll with
  | none => exact absurd hg h
  | some err => exact ⟨_, rfl⟩

theorem failure_excludes_parse (env : Env) (w : World) (orders : List order)
    (hfail : FetchOrShapeFailure env w)
    (hfetch : fetchDocuments env (locked env w).store = .ok (locked env w).store)
    (hparse : parseOrders (locked env w).store = .ok orders) : False := by
  rcases hfail with hget | hshape
  · obtain ⟨e, he⟩ := fetch_error env (locked env w).store hget
    rw [he] at hfetch
    cases hfetch
  · obtain ⟨e, he⟩ := parseOrders_lacksKey w.store hshape
    have hstore : (locked env w).store = w.store := rfl
    rw [hstore, he] at hparse
    cases hparse

/-- C7, amended. When the fetch fails, or a fetched document lacks the identifier as a
string or the timestamp as a time, the run panics; `saveOrders` and `deleteDocuments`
are not called; the staging path holds at exit what it held at the start and no
document is deleted, however many other documents are well-formed; every file other
than the lock marker is as it was; so the target path, whenever it does not name the
lock marker file, holds at exit what it held at the start. -/
theorem failed_fetch_or_shape_aborts (env : Env) (prog filename credentials : String)
    (w : World) (hfail : FetchOrShapeFailure env w) :
    (∃ msg, (main env [prog, filename, credentials] w).1 = .panic msg) ∧
    (∀ e ∈ callsOf env [prog, filename, credentials] w, e.isSave = false ∧ e.isDelete = false) ∧
    (main env [prog, filename, credentials] w).2.fs (resolve env (staging filename)) =
      w.fs (resolve env (staging filename)) ∧
    (main env [prog, filename, credentials] w).2.store = w.store ∧
    (∀ file, file ≠ resolve env (pIDFile env) →
      (main env [prog, filename, credentials] w).2.fs file = w.fs file) ∧
    (resolve env filename ≠ resolve env (pIDFile env) →
      (main env [prog, filename, credentials] w).2.fs (resolve env filename) =
        w.fs (resolve env filename)) := by
  have hst : resolve env (staging filename) ≠ resolve env (pIDFile env) :=
    fun h => pIDFile_ne_staging env filename h.symm
  cases hs : safetyCheck env w.fs filename with
  | some msg =>
    have hmain : main env [prog, filename, credentials] w = (.panic msg, w) := by
      simp [main, hs]
    have hcalls : callsOf env [prog, filename, credentials] w = [] :=
      callsOf_eq _ _ _ _ (by rw [hmain]; simp)
    rw [hcalls, hmain]
    exact ⟨⟨msg, rfl⟩, by simp, rfl, rfl, fun _ _ => rfl, fun _ => rfl⟩
  | none =>
    have hframe : ∀ (fs1 : FS) (q : File), q ≠ resolve env (pIDFile env) →
        fs1 = (locked env w).fs → (Remove env fs1 (pIDFile env)).2 q = w.fs q := by
      intro fs1 q hq hfs
      rw [Remove_other env fs1 _ q hq, hfs, locked_other env w q hq]
    rcases pipeline_cases env filename credentials (locked env w) with
      ⟨e, _, hp⟩ | ⟨e, _, _, hp⟩ | ⟨e, _, _, _, hp⟩ | ⟨e, orders, fs1, _, hf, hpo, _, _⟩ |
      ⟨e, orders, fs1, store1, _, hf, hpo, _, _, _⟩ | ⟨orders, fs1, store1, _, hf, hpo, _, _, _⟩
    · rw [main_passed_calls env prog filename credentials w hs _ (by rw [hp]),
        main_passed env prog filename credentials w hs, hp]
      exact ⟨⟨e, rfl⟩, by simp [Event.isSave, Event.isDelete], hframe _ _ hst rfl, rfl,
        fun q hq => hframe _ q hq rfl, fun hne => hframe _ _ hne rfl⟩
    · rw [main_passed_calls env prog filename credentials w hs _ (by rw [hp]),
        main_passed env prog filename credentials w hs, hp]
      exact ⟨⟨e, rfl⟩, by simp [Event.isSave, Event.isDelete], hframe _ _ hst rfl, rfl,
        fun q hq => hframe _ q hq rfl, fun hne => hframe _ _ hne rfl⟩
    · rw [main_passed_calls env prog filename credentials w hs _ (by rw [hp]),
        main_passed env prog filename credentials w hs, hp]
      exact ⟨⟨e, rfl⟩, by simp [Event.isSave, Event.isDelete], hframe _ _ hst rfl, rfl,
        fun q hq => hframe _ q hq rfl, fun hne => hframe _ _ hne rfl⟩
    · exact (failure_excludes_parse env w orders hfail hf hpo).elim
    · exact (failure_excludes_parse env w orders hfail hf hpo).elim
    · exact (failure_excludes_parse env w orders hfail hf hpo).elim

/-- C7, amended, on a sample run: the query fails, the archive path is `orders.xml`,
which does not name the lock marker file, and nothing is at that path at exit. -/
theorem failed_fetch_or_shape_aborts_witness :
    FetchOrShapeFailure fetchDown fresh ∧
    ((∃ msg, (main fetchDown ["fetch-orders", "orders.xml", "key.json"] fresh).1 = .panic msg) ∧
    (∀ e ∈ callsOf fetchDown ["fetch-orders", "orders.xml", "key.json"] fresh,
      e.isSave = false ∧ e.isDelete = false) ∧
    (main fetchDown ["fetch-orders", "orders.xml", "key.json"] fresh).2.fs
        (resolve fetchDown (staging "orders.xml")) =
      fresh.fs (resolve fetchDown (staging "orders.xml")) ∧
    (main fetchDown ["fetch-orders", "orders.xml", "key.json"] fresh).2.store = fresh.store ∧
    (∀ file, file ≠ resolve fetchDown (pIDFile fetchDown) →
      (main fetchDown ["fetch-orders", "orders.xml", "key.json"] fresh).2.fs file =
        fresh.fs file) ∧
    (resolve fetchDown "orders.xml" ≠ resolve fetchDown (pIDFile fetchDown) →
      (main fetchDown ["fetch-orders", "orders.xml", "key.json"] fresh).2.fs
          (resolve fetchDown "orders.xml") =
        fresh.fs (resolve fetchDown "orders.xml"))) ∧
    resolve fetchDown "orders.xml" ≠ resolve fetchDown (pIDFile fetchDown) ∧
    (main fetchDown ["fetch-orders", "orders.xml", "key.json"] fresh).2.fs
      (resolve fetchDown "orders.xml") = none :=
  have hfail : FetchOrShapeFailure fetchDown fresh := Or.inl (by decide)
  ⟨hfail, failed_fetch_or_shape_aborts fetchDown "fetch-orders" "orders.xml" "key.json"
    fresh hfail, by decide, by decide⟩

/-- C7 does not hold as written when the archive path names the lock marker file. In
the sample run the program sits in `/opt/fetch`, which is also the working directory,
and the archive path is `.pid`: the safety check passes, the marker is written to
`/opt/fetch/.pid`, which is the target, the query fails and the deferred removal fails.
Nothing existed at the target path at the start, and at exit it holds the text of the
process identifier. -/
theorem marker_path_as_target_is_created :
    FetchOrShapeFailure fetchDownNoRemove fresh ∧
    pIDFile fetchDownNoRemove = "/opt/fetch/.pid" ∧
    resolve fetchDownNoRemove ".pid" = resolve fetchDownNoRemove (pIDFile fetchDownNoRemove) ∧
    fresh.fs (resolve fetchDownNoRemove ".pid") = none ∧
    (main fetchDownNoRemove ["fetch-orders", ".pid", "key.json"] fresh).1 =
      .panic "error retrieving dordersocuments: unavailable" ∧
    (main fetchDownNoRemove ["fetch-orders", ".pid", "key.json"] fresh).2.fs
      (resolve fetchDownNoRemove ".pid") = some "4242" ∧
    ¬ (∀ (env : Env) (prog filename credentials : String) (w : World),
        FetchOrShapeFailure env w → AbortsUntouched env prog filename credentials w) := by
  have hfail : FetchOrShapeFailure fetchDownNoRemove fresh := Or.inl (by decide)
  have hfs : (main fetchDownNoRemove ["fetch-orders", ".pid", "key.json"] fresh).2.fs
      (resolve fetchDownNoRemove ".pid") = some "4242" := by decide
  refine ⟨hfail, by decide, by decide, rfl, by decide, hfs, ?_⟩
  intro hall
  have h := (hall fetchDownNoRemove "fetch-orders" ".pid" "key.json" fresh hfail).2.2.1
  rw [hfs] at h
  cases h

/-! ### After a failed purge -/

theorem saveOrders_success (env : Env) (fs fs1 : FS) (filename : String) (orders : List order)
    (h : saveOrders env fs filename orders = (none, fs1)) :
    ∃ data, env.xmlMarshal orders = .ok data ∧ fs1 (resolve env filename) = some data ∧
      fs1 (resolve env (staging filename)) = none := by
  have hne : resolve env filename ≠ resolve env (staging filename) :=
    fun h => staging_ne env filename h.symm
  cases hm : env.xmlMarshal orders with
  | error err => simp [saveOrders, hm] at h
  | ok data =>
    have hsteps := saveOrders_steps env fs filename orders data hm
    rw [h] at hsteps
    cases hw : (WriteFile env fs (staging filename) data).1 with
    | some werr => rw [hw] at hsteps; simp at hsteps
    | none =>
      rw [hw] at hsteps
      simp only at hsteps
      obtain ⟨_, hfs1⟩ := WriteFile_ok env fs _ data hw
      cases hr : (Rename env (WriteFile env fs (staging filename) data).2
          (staging filename) filename).1 with
      | some rerr => rw [hr] at hsteps; simp at hsteps
      | none =>
        rw [hr] at hsteps
        simp only [Prod.mk.injEq, true_and] at hsteps
        obtain ⟨content, hc, _, hfs2⟩ := Rename_ok env _ _ _ hr (staging_ne env filename)
        have hcontent : content = data := by
          rw [hfs1, set_same] at hc
          exact (Option.some.inj hc).symm
        subst hcontent
        rw [hsteps, hfs2]
        exact ⟨content, rfl, by rw [set_other _ _ _ _ hne, set_same], set_same _ _ _⟩

theorem deleteDocuments_failed (env : Env) (store documents store1 : List DocumentSnapshot)
    (e : String) (h : deleteDocuments env store documents = (some e, store1)) :
    store1 = store := by
  unfold deleteDocuments at h
  simp only at h
  cases hc : env.commit (batchDeletes documents) with
  | some err =>
    rw [hc] at h
    simp only [Prod.mk.injEq] at h
    exact h.2.symm
  | none => rw [hc] at h; simp at h

theorem safetyCheck_archived (env : Env) (fs : FS) (filename data : String)
    (hp : pathError env filename = none)
    (hst : fs (resolve env (staging filename)) = none)
    (ht : fs (resolve env filename) = some data) :
    safetyCheck env fs filename = some (filename ++ " exists") := by
  have h1 : Stat env fs (filename ++ ".tmp") ≠ none := by
    intro h
    have := ((Stat_ok_iff env fs _).1 h).2
    simp [present, show filename ++ ".tmp" = staging filename from rfl, hst] at this
  have h2 : Stat env fs filename = none :=
    (Stat_ok_iff env fs _).2 ⟨hp, by simp [present, ht]⟩
  simp [safetyCheck, h1, h2, Option.isNone_iff_eq_none]

/-- C10, amended. After a run that committed the archive and whose purge then failed
(the archive path not naming the lock marker file), the collection still holds every
document and the archive holds the one serialization of the orders. A second run on the
same archive path from the same working directory, for which the archive path is
reachable and whatever else its environment, is stopped by `safetyCheck` with the error
naming the existing archive: it makes no call (no fetch, no archive write, no delete)
and leaves the world, the archive included, as the first run left it. -/
theorem rerun_blocked (env1 env2 : Env) (prog filename credentials prog2 credentials2 : String)
    (w : World) (hrun : CommittedNotPurged env1 prog filename credentials w)
    (hne : resolve env1 filename ≠ resolve env1 (pIDFile env1))
    (hcwd : env2.cwd = env1.cwd) (hreach : pathError env2 filename = none) :
    (main env1 [prog, filename, credentials] w).2.store = w.store ∧
    (∃ orders data, parseOrders w.store = .ok orders ∧ env1.xmlMarshal orders = .ok data ∧
      (main env1 [prog, filename, credentials] w).2.fs (resolve env1 filename) = some data) ∧
    main env2 [prog2, filename, credentials2] (main env1 [prog, filename, credentials] w).2 =
      (.panic (filename ++ " exists"), (main env1 [prog, filename, credentials] w).2) ∧
    callsOf env2 [prog2, filename, credentials2]
      (main env1 [prog, filename, credentials] w).2 = [] := by
  have hst : resolve env1 (staging filename) ≠ resolve env1 (pIDFile env1) :=
    fun h => pIDFile_ne_staging env1 filename h.symm
  have hsame : ∀ path, resolve env2 path = resolve env1 path := by
    intro path
    simp [resolve, hcwd]
  obtain ⟨⟨orders0, hsaved⟩, ⟨docs0, hdeleted⟩⟩ := hrun
  cases hs : safetyCheck env1 w.fs filename with
  | some msg =>
    have hmain : main env1 [prog, filename, credentials] w = (.panic msg, w) := by
      simp [main, hs]
    have hcalls : callsOf env1 [prog, filename, credentials] w = [] :=
      callsOf_eq _ _ _ _ (by rw [hmain]; simp)
    rw [hcalls] at hsaved
    cases hsaved
  | none =>
    rcases pipeline_cases env1 filename credentials (locked env1 w) with
      ⟨e, _, hp⟩ | ⟨e, _, _, hp⟩ | ⟨e, _, _, _, hp⟩ | ⟨e, orders, fs1, _, _, _, _, hp⟩ |
      ⟨e, orders, fs1, store1, _, _, hpo, hsave, hdel, hp⟩ |
      ⟨orders, fs1, store1, _, _, _, _, _, hp⟩
    · rw [main_passed_calls env1 prog filename credentials w hs _ (by rw [hp])] at hsaved
      simp at hsaved
    · rw [main_passed_calls env1 prog filename credentials w hs _ (by rw [hp])] at hsaved
      simp at hsaved
    · rw [main_passed_calls env1 prog filename credentials w hs _ (by rw [hp])] at hsaved
      simp at hsaved
    · rw [main_passed_calls env1 prog filename credentials w hs _ (by rw [hp])] at hsaved
      simp at hsaved
    · obtain ⟨data, hdata, htarget, hstaging⟩ :=
        saveOrders_success env1 _ fs1 filename orders hsave
      have hstore : store1 = w.store := deleteDocuments_failed env1 _ _ store1 e hdel
      have hpo2 : parseOrders w.store = .ok orders := hpo
      rw [main_passed env1 prog filename credentials w hs, hp]
      simp only
      have h1 : (Remove env1 fs1 (pIDFile env1)).2 (resolve env1 filename) = some data := by
        rw [Remove_other env1 fs1 _ _ hne, htarget]
      have h2 : (Remove env1 fs1 (pIDFile env1)).2 (resolve env1 (staging filename)) = none := by
        rw [Remove_other env1 fs1 _ _ hst, hstaging]
      have hblock := safetyCheck_archived env2 (Remove env1 fs1 (pIDFile env1)).2 filename data
        hreach (by rw [hsame]; exact h2) (by rw [hsame]; exact h1)
      have hmain2 : ∀ w2 : World, w2.fs = (Remove env1 fs1 (pIDFile env1)).2 →
          main env2 [prog2, filename, credentials2] w2 = (.panic (filename ++ " exists"), w2) := by
        intro w2 hw2
        simp [main, hw2, hblock]
      refine ⟨hstore, ⟨orders, data, hpo2, hdata, h1⟩, hmain2 _ rfl, ?_⟩
      exact callsOf_eq _ _ _ _ (by rw [hmain2 _ rfl]; simp)
    · rw [main_passed_calls env1 prog filename credentials w hs _ (by rw [hp])] at hdeleted
      simp at hdeleted

/-- C10, amended, on a sample run: the commit of the deletes fails in the first run, the
second run has no fault. -/
theorem rerun_blocked_witness :
    CommittedNotPurged purgeDown "fetch-orders" "orders.xml" "key.json" fresh ∧
    resolve purgeDown "orders.xml" ≠ resolve purgeDown (pIDFile purgeDown) ∧
    calm.cwd = purgeDown.cwd ∧ pathError calm "orders.xml" = none ∧
    ((main purgeDown ["fetch-orders", "orders.xml", "key.json"] fresh).2.store = fresh.store ∧
    (∃ orders data, parseOrders fresh.store = .ok orders ∧
      purgeDown.xmlMarshal orders = .ok data ∧
      (main purgeDown ["fetch-orders", "orders.xml", "key.json"] fresh).2.fs
        (resolve purgeDown "orders.xml") = some data) ∧
    main calm ["fetch-orders", "orders.xml", "key.json"]
        (main purgeDown ["fetch-orders", "orders.xml", "key.json"] fresh).2 =
      (.panic ("orders.xml" ++ " exists"),
        (main purgeDown ["fetch-orders", "orders.xml", "key.json"] fresh).2) ∧
    callsOf calm ["fetch-orders", "orders.xml", "key.json"]
      (main purgeDown ["fetch-orders", "orders.xml", "key.json"] fresh).2 = []) :=
  have hcalls : callsOf purgeDown ["fetch-orders", "orders.xml", "key.json"] fresh =
      [.writePID "/opt/fetch/.pid" "4242" true, .setupFirestore "key.json" true,
        .fetchDocuments (some [docA, docB]), .parseOrders [docA, docB] true,
        .saveOrders "orders.xml" sampleOrders true,
        .deleteDocuments [docA, docB] false, .removePID "/opt/fetch/.pid" true] := by rfl
  have hrun : CommittedNotPurged purgeDown "fetch-orders" "orders.xml" "key.json" fresh :=
    ⟨⟨sampleOrders, by rw [hcalls]; simp⟩, ⟨[docA, docB], by rw [hcalls]; simp⟩⟩
  have hne : resolve purgeDown "orders.xml" ≠ resolve purgeDown (pIDFile purgeDown) := by
    decide
  ⟨hrun, hne, rfl, by decide, rerun_blocked purgeDown calm "fetch-orders" "orders.xml"
    "key.json" "fetch-orders" "key.json" fresh hrun hne rfl (by decide)⟩

/-- C10 does not hold as written. In the sample the first run commits the archive
`orders.xml` and its purge fails; the second run, from the same working directory and
with no call failing, panics with `orders.xml exists`, makes no call at all (no fetch,
no archive write), and the archive holds what the first run wrote, once. -/
theorem rerun_does_not_reappend :
    CommittedNotPurged purgeDown "fetch-orders" "orders.xml" "key.json" fresh ∧
    (main purgeDown sampleArgs fresh).1 = .panic "error deleting orders: deadline exceeded" ∧
    (main purgeDown sampleArgs fresh).2.fs (resolve purgeDown "orders.xml") =
      some "orders:u1,u2" ∧
    (main calm sampleArgs (main purgeDown sampleArgs fresh).2).1 = .panic "orders.xml exists" ∧
    callsOf calm sampleArgs (main purgeDown sampleArgs fresh).2 = [] ∧
    (main calm sampleArgs (main purgeDown sampleArgs fresh).2).2.fs (resolve calm "orders.xml") =
      some "orders:u1,u2" ∧
    ¬ RerunReappends := by
  have hcalls : callsOf purgeDown ["fetch-orders", "orders.xml", "key.json"] fresh =
      [.writePID "/opt/fetch/.pid" "4242" true, .setupFirestore "key.json" true,
        .fetchDocuments (some [docA, docB]), .parseOrders [docA, docB] true,
        .saveOrders "orders.xml" sampleOrders true,
        .deleteDocuments [docA, docB] false, .removePID "/opt/fetch/.pid" true] := by rfl
  have hrun : CommittedNotPurged purgeDown "fetch-orders" "orders.xml" "key.json" fresh :=
    ⟨⟨sampleOrders, by rw [hcalls]; simp⟩, ⟨[docA, docB], by rw [hcalls]; simp⟩⟩
  have hnone : callsOf calm ["fetch-orders", "orders.xml", "key.json"]
      (main purgeDown ["fetch-orders", "orders.xml", "key.json"] fresh).2 = [] := by rfl
  refine ⟨hrun, by decide, by decide, by decide, hnone, by decide, ?_⟩
  intro hall
  have hcalm : calm.faultless :=
    ⟨fun _ => rfl, fun _ => rfl, fun _ _ => rfl, fun _ => rfl, fun orders => ⟨_, rfl⟩,
      fun _ => rfl, rfl, rfl, fun _ => rfl⟩
  obtain ⟨⟨documents, hmem⟩, _⟩ :=
    hall purgeDown calm "fetch-orders" "orders.xml" "key.json" fresh hrun hcalm rfl
  rw [hnone] at hmem
  cases hmem

/-- The archive path `.pid`, given from the working directory `/opt/fetch` where the
program sits, names the lock marker file. A run whose purge fails renames the archive
onto the marker and its deferred removal deletes it, so nothing is left at that path,
and a second run is not blocked: it fetches and writes again. -/
theorem archive_on_marker_is_removed :
    resolve purgeDown ".pid" = resolve purgeDown (pIDFile purgeDown) ∧
    CommittedNotPurged purgeDown "fetch-orders" ".pid" "key.json" fresh ∧
    (main purgeDown ["fetch-orders", ".pid", "key.json"] fresh).2.fs (resolve purgeDown ".pid") =
      none ∧
    (main calm ["fetch-orders", ".pid", "key.json"]
      (main purgeDown ["fetch-orders", ".pid", "key.json"] fresh).2).1 = .done ∧
    (callsOf calm ["fetch-orders", ".pid", "key.json"]
      (main purgeDown ["fetch-orders", ".pid", "key.json"] fresh).2).map Event.isFetch =
      [false, false, true, false, false, false, false] := by
  have hcalls : callsOf purgeDown ["fetch-orders", ".pid", "key.json"] fresh =
      [.writePID "/opt/fetch/.pid" "4242" true, .setupFirestore "key.json" true,
        .fetchDocuments (some [docA, docB]), .parseOrders [docA, docB] true,
        .saveOrders ".pid" sampleOrders true,
        .deleteDocuments [docA, docB] false, .removePID "/opt/fetch/.pid" true] := by rfl
  refine ⟨by decide, ⟨⟨sampleOrders, by rw [hcalls]; simp⟩,
    ⟨[docA, docB], by rw [hcalls]; simp⟩⟩, by decide, by decide, by rfl⟩

/-- C4, on a sample run: another run holds the lock marker. -/
theorem main_blocked_witness :
    (Stat calm held.fs (staging "orders.xml") = none ∨ Stat calm held.fs "orders.xml" = none ∨
      Stat calm held.fs (pIDFile calm) = none) ∧
    ∃ msg, safetyCheck calm held.fs "orders.xml" = some msg ∧
      main calm ["fetch-orders", "orders.xml", "key.json"] held = (.panic msg, held) ∧
      (main calm ["fetch-orders", "orders.xml", "key.json"] held).2.trace = held.trace ∧
      (main calm ["fetch-orders", "orders.xml", "key.json"] held).2.fs = held.fs ∧
      (main calm ["fetch-orders", "orders.xml", "key.json"] held).2.store = held.store ∧
      (main calm ["fetch-orders", "orders.xml", "key.json"] held).2.fs
          (resolve calm (pIDFile calm)) =
        held.fs (resolve calm (pIDFile calm)) :=
  have h : Stat calm held.fs (staging "orders.xml") = none ∨
      Stat calm held.fs "orders.xml" = none ∨
      Stat calm held.fs (pIDFile calm) = none := Or.inr (Or.inr (by decide))
  ⟨h, main_blocked calm "fetch-orders" "orders.xml" "key.json" held h⟩

/-- C5, on a sample run that panics in the purge: the marker holds the process
identifier while the statements after the `defer` run, the removal succeeds, and the
marker does not exist at exit. -/
theorem main_releases_witness :
    safetyCheck purgeDown fresh.fs "orders.xml" = none ∧
    ((main purgeDown ["fetch-orders", "orders.xml", "key.json"] fresh).1 =
      (pipeline purgeDown "orders.xml" "key.json" (locked purgeDown fresh)).1 ∧
    (main purgeDown ["fetch-orders", "orders.xml", "key.json"] fresh).2.trace =
      (pipeline purgeDown "orders.xml" "key.json" (locked purgeDown fresh)).2.trace ++
        [Event.removePID (pIDFile purgeDown)
          (Remove purgeDown (pipeline purgeDown "orders.xml" "key.json"
            (locked purgeDown fresh)).2.fs (pIDFile purgeDown)).1.isNone] ∧
    (main purgeDown ["fetch-orders", "orders.xml", "key.json"] fresh).2.fs =
      (Remove purgeDown (pipeline purgeDown "orders.xml" "key.json"
        (locked purgeDown fresh)).2.fs (pIDFile purgeDown)).2 ∧
    ((Remove purgeDown (pipeline purgeDown "orders.xml" "key.json"
        (locked purgeDown fresh)).2.fs (pIDFile purgeDown)).1 = none →
      (main purgeDown ["fetch-orders", "orders.xml", "key.json"] fresh).2.fs
        (resolve purgeDown (pIDFile purgeDown)) = none) ∧
    (pathError purgeDown (pIDFile purgeDown) = none →
      purgeDown.removeFault (pIDFile purgeDown) = none →
      (main purgeDown ["fetch-orders", "orders.xml", "key.json"] fresh).2.fs
        (resolve purgeDown (pIDFile purgeDown)) = none)) ∧
    (main purgeDown ["fetch-orders", "orders.xml", "key.json"] fresh).1 =
      .panic "error deleting orders: deadline exceeded" ∧
    (pipeline purgeDown "orders.xml" "key.json" (locked purgeDown fresh)).2.fs
      (resolve purgeDown (pIDFile purgeDown)) = some "4242" ∧
    (Remove purgeDown (pipeline purgeDown "orders.xml" "key.json"
      (locked purgeDown fresh)).2.fs (pIDFile purgeDown)).1 = none ∧
    (main purgeDown ["fetch-orders", "orders.xml", "key.json"] fresh).2.fs
      (resolve purgeDown (pIDFile purgeDown)) = none :=
  have h : safetyCheck purgeDown fresh.fs "orders.xml" = none := by decide
  ⟨h, main_releases purgeDown "fetch-orders" "orders.xml" "key.json" fresh h,
    by decide, by decide, by decide, by decide⟩

/-- C6, the run the code makes when the lock marker cannot be written. The write of the
text `4242` to `/opt/fetch/.pid` fails, its error is dropped, and the run goes on: it
sets up the store, fetches, transforms, writes the archive and deletes the documents,
and returns normally. -/
theorem unwritable_marker_run_proceeds :
    (WriteFile readOnlyInstall fresh.fs (pIDFile readOnlyInstall) (toString readOnlyInstall.pid)).1 =
      some "open /opt/fetch/.pid: permission denied" ∧
    (main readOnlyInstall sampleArgs fresh).1 = .done ∧
    callsOf readOnlyInstall sampleArgs fresh =
      [.writePID "/opt/fetch/.pid" "4242" false, .setupFirestore "key.json" true,
        .fetchDocuments (some [docA, docB]), .parseOrders [docA, docB] true,
        .saveOrders "orders.xml" sampleOrders true,
        .deleteDocuments [docA, docB] true, .removePID "/opt/fetch/.pid" false] ∧
    (main readOnlyInstall sampleArgs fresh).2.fs (resolve readOnlyInstall "orders.xml") =
      some "orders:u1,u2" ∧
    (main readOnlyInstall sampleArgs fresh).2.store.length = 0 := by
  refine ⟨by decide, by decide, by rfl, by decide, by decide⟩

end FetchOrders
